import Mathlib

/-!
Shallow embedding of the day-19 solver (`src/bin/19.rs`): blueprint data
model, the `possible_moves` state-transition function, the branch-and-bound
search `most_geodes_openable`, the input parser and the `part_one` /
`part_two` aggregations.  Rust `u32` values are modelled as `Nat`; the
unchecked `u32` subtractions of the source become truncated `Nat`
subtraction, and the theorems below show the relevant subtrahends are
always covered.  The `while let Some(state) = consider.pop_front()` loop is
modelled with an explicit fuel argument (via `Nat.rec`, so that concrete
runs reduce in the kernel); the termination theorem shows the fuel
`5 ^ minutes` always suffices, so the fuelled loop returns `some` on every
input.
-/

/-- Model of `struct Cost(u32, u32, u32)`: ore, clay, obsidian components. -/
structure Cost where
  ore : Nat
  clay : Nat
  obsidian : Nat
deriving DecidableEq

/-- Model of `Cost::max`: componentwise maximum. -/
def Cost.max (a b : Cost) : Cost :=
  ⟨Nat.max a.ore b.ore, Nat.max a.clay b.clay, Nat.max a.obsidian b.obsidian⟩

/-- Model of `struct Blueprint`. -/
structure Blueprint where
  number : Nat
  ore_robot_cost : Cost
  clay_robot_cost : Cost
  obsidian_robot_cost : Cost
  geode_robot_cost : Cost
deriving DecidableEq

/-- Model of `Blueprint::most_robots_needed`. -/
def Blueprint.most_robots_needed (bp : Blueprint) : Cost :=
  ((((Cost.mk 0 0 0).max bp.ore_robot_cost).max bp.clay_robot_cost).max
      bp.obsidian_robot_cost).max bp.geode_robot_cost

/-- Model of `enum Robot`. -/
inductive Robot
  | ore
  | clay
  | obsidian
  | geode
deriving DecidableEq

/-- Model of `Robot::cost`. -/
def Robot.cost : Robot → Blueprint → Cost
  | .ore, bp => bp.ore_robot_cost
  | .clay, bp => bp.clay_robot_cost
  | .obsidian, bp => bp.obsidian_robot_cost
  | .geode, bp => bp.geode_robot_cost

/-- Model of `const ROBOT_TYPES: [Robot; 4]`. -/
def ROBOT_TYPES : List Robot := [.ore, .clay, .obsidian, .geode]

/-- Model of `fn div_ceil(a: u32, b: u32) -> u32 { (a + b - 1) / b }`. -/
def div_ceil (a b : Nat) : Nat := (a + b - 1) / b

/-- Model of `struct State`. -/
structure State where
  time : Nat
  open_geodes : Nat
  ore_robots : Nat
  clay_robots : Nat
  obsidian_robots : Nat
  ore : Nat
  clay : Nat
  obsidian : Nat
deriving DecidableEq

/-- Model of `State::create_initial`. -/
def State.create_initial (time : Nat) : State :=
  ⟨time, 0, 1, 0, 0, 0, 0, 0⟩

/-- Model of `State::maximum_achievable_open_geodes`:
`self.open_geodes + ((self.time * (self.time - 1)) / 2)`. -/
def State.maximum_achievable_open_geodes (s : State) : Nat :=
  s.open_geodes + s.time * (s.time - 1) / 2

/-- Model of the `most_robots_needed` early-`continue` test inside
`State::possible_moves` (geode robots are never capped). -/
def State.atRobotCap (s : State) (mrn : Cost) : Robot → Bool
  | .ore => mrn.ore ≤ s.ore_robots
  | .clay => mrn.clay ≤ s.clay_robots
  | .obsidian => mrn.obsidian ≤ s.obsidian_robots
  | .geode => false

/-- Model of the `minutes_until_start` computation inside
`State::possible_moves`: for each resource with an unmet cost, `continue`
(here: `none`) if there is no producing robot, otherwise accumulate the
ceiling-division wait; `saturating_sub` is `Nat` subtraction. -/
def State.waitFor (s : State) (cost : Cost) : Option Nat :=
  if 0 < cost.ore - s.ore ∧ s.ore_robots = 0 then none
  else if 0 < cost.clay - s.clay ∧ s.clay_robots = 0 then none
  else if 0 < cost.obsidian - s.obsidian ∧ s.obsidian_robots = 0 then none
  else some (Nat.max (Nat.max (Nat.max 0
    (if 0 < cost.ore - s.ore then div_ceil (cost.ore - s.ore) s.ore_robots else 0))
    (if 0 < cost.clay - s.clay then div_ceil (cost.clay - s.clay) s.clay_robots else 0))
    (if 0 < cost.obsidian - s.obsidian then div_ceil (cost.obsidian - s.obsidian) s.obsidian_robots else 0))

/-- Model of the `State` literal inserted into `possible` by
`State::possible_moves`, given the chosen robot and the computed
`minutes_until_start` value `w`. -/
def State.buildResult (s : State) (bp : Blueprint) (robot : Robot) (w : Nat) : State :=
  { time := s.time - (1 + w)
    open_geodes := s.open_geodes + (match robot with | .geode => s.time - (1 + w) | _ => 0)
    ore_robots := s.ore_robots + (if robot = .ore then 1 else 0)
    clay_robots := s.clay_robots + (if robot = .clay then 1 else 0)
    obsidian_robots := s.obsidian_robots + (if robot = .obsidian then 1 else 0)
    ore := s.ore + s.ore_robots * (w + 1) - (robot.cost bp).ore
    clay := s.clay + s.clay_robots * (w + 1) - (robot.cost bp).clay
    obsidian := s.obsidian + s.obsidian_robots * (w + 1) - (robot.cost bp).obsidian }

/-- Model of one `for robot in ROBOT_TYPES` iteration of
`State::possible_moves`: `none` exactly when the source hits a `continue`
or the `time > 0` insertion guard fails. -/
def State.buildMove (s : State) (bp : Blueprint) (mrn : Cost) (robot : Robot) : Option State :=
  if s.atRobotCap mrn robot then none
  else
    match s.waitFor (robot.cost bp) with
    | none => none
    | some w => if 0 < s.time - (1 + w) then some (s.buildResult bp robot w) else none

/-- Model of `State::possible_moves`.  The source returns a `HashSet`; the
four candidate children are pairwise distinct (each increments a different
robot counter), so a list of the inserted states models its contents. -/
def State.possible_moves (s : State) (bp : Blueprint) (mrn : Cost) : List State :=
  ROBOT_TYPES.filterMap (s.buildMove bp mrn)

/-- Model of the `while let Some(state) = consider.pop_front()` loop of
`Blueprint::most_geodes_openable`: pop the front state, raise `best`,
prune when the optimistic bound is strictly below `best`, otherwise extend
the queue at the back with `possible_moves`.  The extra fuel argument makes
the loop structurally recursive; `none` means the fuel ran out before the
queue emptied.  Written with a bare `Nat.rec` so that concrete runs reduce
efficiently in the kernel. -/
def searchLoop (bp : Blueprint) (mrn : Cost) (fuel : Nat) : List State → Nat → Option Nat :=
  Nat.rec (motive := fun _ => List State → Nat → Option Nat)
    (fun consider best =>
      match consider with
      | [] => some best
      | _ :: _ => none)
    (fun _ ih consider best =>
      match consider with
      | [] => some best
      | state :: rest =>
        let best2 := Nat.max best state.open_geodes
        if state.maximum_achievable_open_geodes < best2 then
          ih rest best2
        else
          ih (rest ++ state.possible_moves bp mrn) best2)
    fuel

/-- Model of `Blueprint::most_geodes_openable`, fuelled form: the loop run
with fuel `5 ^ minutes` (shown sufficient by `searchLoop_terminates`). -/
def Blueprint.most_geodes_openable_fueled (bp : Blueprint) (minutes : Nat) : Option Nat :=
  searchLoop bp bp.most_robots_needed (5 ^ minutes) [State.create_initial minutes] 0

/-- Model of `Blueprint::most_geodes_openable` as the total function the
source computes; the default branch of `getD` is never taken. -/
def Blueprint.most_geodes_openable (bp : Blueprint) (minutes : Nat) : Nat :=
  (bp.most_geodes_openable_fueled minutes).getD 0

/-- The example blueprint of the repository's tests: ore robot 4 ore, clay
robot 2 ore, obsidian robot 3 ore + 14 clay, geode robot 2 ore + 7
obsidian. -/
def exampleBlueprint : Blueprint :=
  ⟨1, ⟨4, 0, 0⟩, ⟨2, 0, 0⟩, ⟨3, 14, 0⟩, ⟨2, 0, 7⟩⟩

/-- Reachability along chains of `possible_moves` transitions. -/
inductive Reaches (bp : Blueprint) (mrn : Cost) : State → State → Prop
  | refl (s : State) : Reaches bp mrn s s
  | head {s c u : State} : c ∈ s.possible_moves bp mrn → Reaches bp mrn c u →
      Reaches bp mrn s u

/-- Generic branch-and-bound runner over the same transition function: the
`keep` predicate decides whether a popped state is expanded (after the
running best is raised) and `ins` decides where the children enter the
queue.  The source loop is the instance `srcKeep` / `srcIns`; a
depth-first instance with a stronger admissible bound is used to evaluate
concrete runs quickly. -/
def bbRun (bp : Blueprint) (mrn : Cost) (keep : State → Nat → Bool)
    (ins : List State → List State → List State) (fuel : Nat) :
    List State → Nat → Option Nat :=
  Nat.rec (motive := fun _ => List State → Nat → Option Nat)
    (fun q best =>
      match q with
      | [] => some best
      | _ :: _ => none)
    (fun _ ih q best =>
      match q with
      | [] => some best
      | s :: rest =>
        let best2 := Nat.max best s.open_geodes
        if keep s best2 then
          ih (ins (s.possible_moves bp mrn) rest) best2
        else
          ih rest best2)
    fuel

/-- The source loop's expansion test: expand when the optimistic bound is
not strictly below the running best. -/
def srcKeep (s : State) (best : Nat) : Bool :=
  decide (best ≤ s.maximum_achievable_open_geodes)

/-- The source loop's queue discipline: children are appended at the back. -/
def srcIns (children rest : List State) : List State := rest ++ children

/-- Termination measure for the search queue: each state of remaining time
`t` accounts for `5 ^ t`, which strictly exceeds the joint measure of its
at most four children (each of strictly smaller time). -/
def queueMeasure (q : List State) : Nat := (q.map (fun s => 5 ^ s.time)).sum

/-- Queue discipline for the fast concrete runs: depth first. -/
def fastIns (children rest : List State) : List State := children ++ rest

/-- Forces a `Nat` argument to a literal before continuing; this keeps the
terms arising during kernel evaluation of concrete runs shallow.  It is the
identity (`forceNat_eq`). -/
def forceNat {A : Type} (n : Nat) (k : Nat → A) : A :=
  match n with
  | 0 => k 0
  | m + 1 => k (m + 1)

/-- Forces every field of a `State` to a literal before continuing; the
identity (`forceState_eq`). -/
def forceState {A : Type} (s : State) (k : State → A) : A :=
  forceNat s.time fun t =>
  forceNat s.open_geodes fun g =>
  forceNat s.ore_robots fun a =>
  forceNat s.clay_robots fun b =>
  forceNat s.obsidian_robots fun c =>
  forceNat s.ore fun x =>
  forceNat s.clay fun y =>
  forceNat s.obsidian fun z =>
  k (State.mk t g a b c x y z)

/-- Optimistic relaxed play used only to prune concrete runs faster: every
minute the player receives a free clay robot, additionally buys an obsidian
robot whenever `ocl` clay is on hand, and additionally builds a geode robot
whenever `gob` obsidian is on hand (collecting one geode per remaining
minute).  This dominates every real chain of a blueprint in which ore and
clay robots cost only ore, obsidian robots cost ore and clay, and geode
robots cost ore and obsidian, which is what the admissibility lemmas below
establish.  Written with a bare `Nat.rec` so concrete runs reduce
efficiently in the kernel. -/
def relaxedBound (gob ocl t : Nat) : Nat → Nat → Nat → Nat → Nat :=
  Nat.rec (motive := fun _ => Nat → Nat → Nat → Nat → Nat)
    (fun _ _ _ _ => 0)
    (fun t ih ob obr clay clr =>
      (if gob ≤ ob then t else 0) +
        ih (ob + obr - (if gob ≤ ob then gob else 0))
          (obr + (if ocl ≤ clay then 1 else 0))
          (clay + clr - (if ocl ≤ clay then ocl else 0))
          (clr + 1))
    t

/-- Pruning test for the fast concrete runs: expand only when the running
best does not already reach the relaxed-play bound. -/
def fastKeep (bp : Blueprint) (s : State) (best : Nat) : Bool :=
  decide (best ≤ s.open_geodes +
    relaxedBound bp.geode_robot_cost.obsidian bp.obsidian_robot_cost.clay
      s.time s.obsidian s.obsidian_robots s.clay s.clay_robots)

/-- Kernel-efficient form of the fast instance of the generic runner: same
function as `bbRun` with `fastKeep` / `fastIns` (`fastRunF_eq_bbRun`), with
forcing wrappers so concrete runs keep all numerals in literal form. -/
def fastRunF (bp : Blueprint) (mrn : Cost) (fuel : Nat) : List State → Nat → Option Nat :=
  Nat.rec (motive := fun _ => List State → Nat → Option Nat)
    (fun q best =>
      match q with
      | [] => some best
      | _ :: _ => none)
    (fun _ ih q best =>
      match q with
      | [] => some best
      | s :: rest =>
        forceState s fun s =>
        forceNat (Nat.max best s.open_geodes) fun best2 =>
        if fastKeep bp s best2 then
          ih (s.possible_moves bp mrn ++ rest) best2
        else
          ih rest best2)
    fuel

/-- One iteration of the search loop of `most_geodes_openable`, as a
relation on `(queue, best)` configurations: pop the front state, raise the
best, then either prune (bound strictly below best) or expand. -/
inductive SearchStep (bp : Blueprint) (mrn : Cost) :
    List State × Nat → List State × Nat → Prop
  | prune (s : State) (rest : List State) (best : Nat) :
      s.maximum_achievable_open_geodes < Nat.max best s.open_geodes →
      SearchStep bp mrn (s :: rest, best) (rest, Nat.max best s.open_geodes)
  | expand (s : State) (rest : List State) (best : Nat) :
      ¬s.maximum_achievable_open_geodes < Nat.max best s.open_geodes →
      SearchStep bp mrn (s :: rest, best)
        (rest ++ s.possible_moves bp mrn, Nat.max best s.open_geodes)

/-- Model of `str::starts_with` on character lists. -/
def startsWithL (p s : List Char) : Bool := p.isPrefixOf s

/-- Fuel-driven worker for `splitOnL`; the fuel `length + 1` always
suffices since every step either terminates or consumes a character. -/
def splitStep (sep : List Char) : Nat → List Char → List Char → List (List Char)
  | 0, acc, rest => [acc.reverse ++ rest]
  | fuel + 1, acc, rest =>
      if sep.isPrefixOf rest then
        acc.reverse :: splitStep sep fuel [] (rest.drop sep.length)
      else
        match rest with
        | [] => [acc.reverse]
        | c :: cs => splitStep sep fuel (c :: acc) cs

/-- Model of `str::split` with a non-empty literal separator: leftmost,
non-overlapping, keeping leading/trailing empty pieces. -/
def splitOnL (sep s : List Char) : List (List Char) := splitStep sep (s.length + 1) [] s

/-- Fuel-driven worker for `replaceL`. -/
def replaceStep (pat repl : List Char) : Nat → List Char → List Char
  | 0, rest => rest
  | fuel + 1, rest =>
      if pat.isPrefixOf rest then repl ++ replaceStep pat repl fuel (rest.drop pat.length)
      else
        match rest with
        | [] => []
        | c :: cs => c :: replaceStep pat repl fuel cs

/-- Model of `str::replace` with a non-empty literal pattern: replaces all
leftmost non-overlapping occurrences. -/
def replaceL (s pat repl : List Char) : List Char := replaceStep pat repl (s.length + 1) s

/-- Model of `str::parse::<u32>()`: optional leading plus sign, at least one
ASCII digit, and the value must fit in a `u32`. -/
def parseU32L (s : List Char) : Option Nat :=
  let digits := match s with
    | '+' :: rest => rest
    | _ => s
  if digits ≠ [] ∧ digits.all (fun c => 48 ≤ c.toNat ∧ c.toNat ≤ 57) then
    let v := digits.foldl (fun n c => n * 10 + (c.toNat - 48)) 0
    if v < 4294967296 then some v else none
  else none

/-- Model of `str::lines`: split on the newline character, drop one
trailing empty piece, and strip one trailing carriage return per line. -/
def rustLines (s : List Char) : List (List Char) :=
  let parts := splitOnL ['\n'] s
  let parts2 := if parts.getLast? = some [] then parts.dropLast else parts
  parts2.map (fun l =>
    match l.getLast? with
    | some '\x0d' => l.dropLast
    | _ => l)

/-- Accumulator for the five `Result` fields of `Blueprint::from_str`
(`Err` is `none`). -/
structure ParseAcc where
  number : Option Nat
  ore_robot_cost : Option Cost
  clay_robot_cost : Option Cost
  obsidian_robot_cost : Option Cost
  geode_robot_cost : Option Cost

/-- Model of the `for sentence in part.split(". ")` body of
`Blueprint::from_str`: each matching sentence overwrites its field. -/
def processSentence (acc : ParseAcc) (sentence : List Char) : ParseAcc :=
  if startsWithL "Each ore robot".data sentence then
    { acc with ore_robot_cost :=
        match parseU32L (replaceL (replaceL sentence "Each ore robot costs ".data [])
            " ore".data []) with
        | some v => some ⟨v, 0, 0⟩
        | none => none }
  else if startsWithL "Each clay robot".data sentence then
    { acc with clay_robot_cost :=
        match parseU32L (replaceL (replaceL sentence "Each clay robot costs ".data [])
            " ore".data []) with
        | some v => some ⟨v, 0, 0⟩
        | none => none }
  else if startsWithL "Each obsidian robot".data sentence then
    { acc with obsidian_robot_cost :=
        match (splitOnL " ore and ".data
            (replaceL (replaceL sentence "Each obsidian robot costs ".data [])
              " clay".data [])) with
        | [a, b] =>
          match parseU32L a, parseU32L b with
          | some ore, some clay => some ⟨ore, clay, 0⟩
          | _, _ => none
        | _ => none }
  else if startsWithL "Each geode robot".data sentence then
    { acc with geode_robot_cost :=
        match (splitOnL " ore and ".data
            (replaceL (replaceL sentence "Each geode robot costs ".data [])
              " obsidian.".data [])) with
        | [a, b] =>
          match parseU32L a, parseU32L b with
          | some ore, some obsidian => some ⟨ore, 0, obsidian⟩
          | _, _ => none
        | _ => none }
  else acc

/-- Model of the `for part in s.split(": ")` body of `Blueprint::from_str`. -/
def processPart (acc : ParseAcc) (part : List Char) : ParseAcc :=
  if startsWithL "Blueprint".data part then
    { acc with number := parseU32L (replaceL part "Blueprint ".data []) }
  else
    (splitOnL ". ".data part).foldl processSentence acc

/-- Model of `Blueprint::from_str`: all five fields must have been parsed
(the trailing `?` operators). -/
def Blueprint.from_str (s : List Char) : Option Blueprint :=
  let acc := (splitOnL ": ".data s).foldl processPart ⟨none, none, none, none, none⟩
  match acc.number, acc.ore_robot_cost, acc.clay_robot_cost,
      acc.obsidian_robot_cost, acc.geode_robot_cost with
  | some n, some a, some b, some c, some d => some ⟨n, a, b, c, d⟩
  | _, _, _, _, _ => none

/-- Model of `part_one`: lines that fail to parse are skipped by
`filter_map`, and the function always returns `Some` of the sum of
`number * most_geodes_openable(24)` over the lines that parse. -/
def part_one (input : List Char) : Option Nat :=
  some ((rustLines input).filterMap (fun line =>
    match Blueprint.from_str line with
    | none => none
    | some bp => some (bp.number * bp.most_geodes_openable 24))).sum

/-- Model of `part_two`: lines that fail to parse are skipped by
`filter_map`, and the function always returns `Some` of the product of
`most_geodes_openable(32)` over the parsed blueprints with number at most
3. -/
def part_two (input : List Char) : Option Nat :=
  some ((rustLines input).filterMap (fun line =>
    match Blueprint.from_str line with
    | none => none
    | some bp => if bp.number ≤ 3 then some (bp.most_geodes_openable 32) else none)).prod

/-- Input used to witness the amended C3: one malformed line followed by
one well-formed blueprint line. -/
def mixedInput : List Char :=
  ("garbage\nBlueprint 1: Each ore robot costs 1 ore. Each clay robot costs 1 ore. " ++
    "Each obsidian robot costs 1 ore and 1 clay. " ++
    "Each geode robot costs 1 ore and 1 obsidian.").data

set_option maxRecDepth 100000

/-- Equation: the loop returns the running best once the queue is empty. -/
theorem searchLoop_nil (bp : Blueprint) (mrn : Cost) (fuel best : Nat) :
    searchLoop bp mrn fuel [] best = some best := by
  cases fuel <;> rfl

/-- Equation: with no fuel and a non-empty queue the loop signals failure. -/
theorem searchLoop_zero_cons (bp : Blueprint) (mrn : Cost) (state : State)
    (rest : List State) (best : Nat) :
    searchLoop bp mrn 0 (state :: rest) best = none := rfl

/-- Equation: one iteration of the loop on a non-empty queue. -/
theorem searchLoop_succ_cons (bp : Blueprint) (mrn : Cost) (fuel : Nat) (state : State)
    (rest : List State) (best : Nat) :
    searchLoop bp mrn (fuel + 1) (state :: rest) best =
      (if state.maximum_achievable_open_geodes < Nat.max best state.open_geodes then
        searchLoop bp mrn fuel rest (Nat.max best state.open_geodes)
      else
        searchLoop bp mrn fuel (rest ++ state.possible_moves bp mrn)
          (Nat.max best state.open_geodes)) := rfl

/-- Inversion of one `possible_moves` loop iteration: a child is produced
exactly when the robot is not capped, the wait is feasible, and the child
would still have positive remaining time. -/
theorem State.buildMove_eq_some {s : State} {bp : Blueprint} {mrn : Cost}
    {robot : Robot} {c : State} :
    s.buildMove bp mrn robot = some c ↔
      s.atRobotCap mrn robot = false ∧ ∃ w, s.waitFor (robot.cost bp) = some w ∧
        0 < s.time - (1 + w) ∧ c = s.buildResult bp robot w := by
  unfold State.buildMove
  cases h1 : s.atRobotCap mrn robot with
  | true => simp [h1]
  | false =>
    simp only [h1, Bool.false_eq_true, if_false]
    cases h2 : s.waitFor (robot.cost bp) with
    | none => simp
    | some w =>
      by_cases h3 : 0 < s.time - (1 + w)
      · simp only [h3, if_true, Option.some.injEq, true_and]
        constructor
        · rintro rfl; exact ⟨w, rfl, h3, rfl⟩
        · rintro ⟨w2, hw2, _, rfl⟩
          obtain rfl : w = w2 := by simpa using hw2
          rfl
      · simp only [h3, if_false, true_and]
        constructor
        · intro h; exact absurd h (by simp)
        · rintro ⟨w2, hw2, hpos, _⟩
          obtain rfl : w = w2 := by simpa using hw2
          exact absurd hpos h3

/-- Membership in `possible_moves` means some robot type produced the child. -/
theorem State.mem_possible_moves {s c : State} {bp : Blueprint} {mrn : Cost} :
    c ∈ s.possible_moves bp mrn ↔ ∃ robot, s.buildMove bp mrn robot = some c := by
  unfold State.possible_moves
  rw [List.mem_filterMap]
  constructor
  · rintro ⟨robot, _, h⟩; exact ⟨robot, h⟩
  · rintro ⟨robot, h⟩
    refine ⟨robot, ?_, h⟩
    cases robot <;> simp [ROBOT_TYPES]

/-- Ceiling division covers the requested amount. -/
theorem le_mul_div_ceil (a b : Nat) (hb : 0 < b) : a ≤ b * div_ceil a b := by
  unfold div_ceil
  have h1 := Nat.div_add_mod (a + b - 1) b
  have h2 := Nat.mod_lt (a + b - 1) hb
  omega

/-- A successful wait computation guarantees that, after the wait, stock
plus production covers every component of the cost. -/
theorem State.waitFor_covers {s : State} {cost : Cost} {w : Nat}
    (h : s.waitFor cost = some w) :
    cost.ore ≤ s.ore + s.ore_robots * w ∧
      cost.clay ≤ s.clay + s.clay_robots * w ∧
      cost.obsidian ≤ s.obsidian + s.obsidian_robots * w := by
  unfold State.waitFor at h
  by_cases g1 : 0 < cost.ore - s.ore ∧ s.ore_robots = 0
  · simp [g1] at h
  by_cases g2 : 0 < cost.clay - s.clay ∧ s.clay_robots = 0
  · simp [g1, g2] at h
  by_cases g3 : 0 < cost.obsidian - s.obsidian ∧ s.obsidian_robots = 0
  · simp [g1, g2, g3] at h
  simp only [g1, g2, g3, if_false] at h
  obtain rfl : _ = w := Option.some.inj h
  refine ⟨?_, ?_, ?_⟩
  · by_cases hn : 0 < cost.ore - s.ore
    · have hr : 0 < s.ore_robots := by omega
      have hd : div_ceil (cost.ore - s.ore) s.ore_robots ≤
          Nat.max (Nat.max (Nat.max 0 (if 0 < cost.ore - s.ore then div_ceil (cost.ore - s.ore) s.ore_robots else 0)) (if 0 < cost.clay - s.clay then div_ceil (cost.clay - s.clay) s.clay_robots else 0)) (if 0 < cost.obsidian - s.obsidian then div_ceil (cost.obsidian - s.obsidian) s.obsidian_robots else 0) := by
        simp only [hn, if_true]
        exact le_trans (le_trans (Nat.le_max_right _ _) (Nat.le_max_left _ _)) (Nat.le_max_left _ _)
      have := le_mul_div_ceil (cost.ore - s.ore) s.ore_robots hr
      have := Nat.mul_le_mul_left s.ore_robots hd
      omega
    · omega
  · by_cases hn : 0 < cost.clay - s.clay
    · have hr : 0 < s.clay_robots := by omega
      have hd : div_ceil (cost.clay - s.clay) s.clay_robots ≤
          Nat.max (Nat.max (Nat.max 0 (if 0 < cost.ore - s.ore then div_ceil (cost.ore - s.ore) s.ore_robots else 0)) (if 0 < cost.clay - s.clay then div_ceil (cost.clay - s.clay) s.clay_robots else 0)) (if 0 < cost.obsidian - s.obsidian then div_ceil (cost.obsidian - s.obsidian) s.obsidian_robots else 0) := by
        simp only [hn, if_true]
        exact le_trans (Nat.le_max_right _ _) (Nat.le_max_left _ _)
      have := le_mul_div_ceil (cost.clay - s.clay) s.clay_robots hr
      have := Nat.mul_le_mul_left s.clay_robots hd
      omega
    · omega
  · by_cases hn : 0 < cost.obsidian - s.obsidian
    · have hr : 0 < s.obsidian_robots := by omega
      have hd : div_ceil (cost.obsidian - s.obsidian) s.obsidian_robots ≤
          Nat.max (Nat.max (Nat.max 0 (if 0 < cost.ore - s.ore then div_ceil (cost.ore - s.ore) s.ore_robots else 0)) (if 0 < cost.clay - s.clay then div_ceil (cost.clay - s.clay) s.clay_robots else 0)) (if 0 < cost.obsidian - s.obsidian then div_ceil (cost.obsidian - s.obsidian) s.obsidian_robots else 0) := by
        simp only [hn, if_true]
        exact Nat.le_max_right _ _
      have := le_mul_div_ceil (cost.obsidian - s.obsidian) s.obsidian_robots hr
      have := Nat.mul_le_mul_left s.obsidian_robots hd
      omega
    · omega

/-- Every generated child has strictly positive remaining time. -/
theorem State.child_time_pos {s c : State} {bp : Blueprint} {mrn : Cost}
    (h : c ∈ s.possible_moves bp mrn) : 0 < c.time := by
  obtain ⟨robot, hb⟩ := State.mem_possible_moves.mp h
  obtain ⟨-, w, -, hpos, rfl⟩ := State.buildMove_eq_some.mp hb
  exact hpos

/-- Every generated child has strictly smaller remaining time. -/
theorem State.child_time_lt {s c : State} {bp : Blueprint} {mrn : Cost}
    (h : c ∈ s.possible_moves bp mrn) : c.time < s.time := by
  obtain ⟨robot, hb⟩ := State.mem_possible_moves.mp h
  obtain ⟨-, w, -, hpos, rfl⟩ := State.buildMove_eq_some.mp hb
  unfold State.buildResult
  simp only
  omega

/-- Open geodes never decrease along a transition. -/
theorem State.child_open_geodes_le {s c : State} {bp : Blueprint} {mrn : Cost}
    (h : c ∈ s.possible_moves bp mrn) : s.open_geodes ≤ c.open_geodes := by
  obtain ⟨robot, hb⟩ := State.mem_possible_moves.mp h
  obtain ⟨-, w, -, -, rfl⟩ := State.buildMove_eq_some.mp hb
  unfold State.buildResult
  simp only
  omega

/-- Unfolding of the triangular number at a successor. -/
theorem tri_succ (t : Nat) : (t + 1) * t / 2 = t + t * (t - 1) / 2 := by
  cases t with
  | zero => rfl
  | succ n =>
    have h : (n + 1 + 1) * (n + 1) = (n + 1) * n + 2 * (n + 1) := by ring
    rw [h, Nat.succ_sub_one]
    rw [Nat.mul_comm 2 (n + 1), Nat.add_mul_div_right _ _ (by norm_num : 0 < 2)]
    omega

/-- Monotonicity of the triangular number. -/
theorem tri_mono {a b : Nat} (h : a ≤ b) : a * (a - 1) / 2 ≤ b * (b - 1) / 2 :=
  Nat.div_le_div_right (Nat.mul_le_mul h (Nat.sub_le_sub_right h 1))

/-- One-step soundness of the optimistic triangular bound: a transition
never increases `open_geodes + time * (time - 1) / 2`. -/
theorem State.bound_step {s c : State} {bp : Blueprint} {mrn : Cost}
    (h : c ∈ s.possible_moves bp mrn) :
    c.maximum_achievable_open_geodes ≤ s.maximum_achievable_open_geodes := by
  obtain ⟨robot, hb⟩ := State.mem_possible_moves.mp h
  obtain ⟨-, w, -, hpos, rfl⟩ := State.buildMove_eq_some.mp hb
  unfold State.maximum_achievable_open_geodes State.buildResult
  simp only
  have htlt : s.time - (1 + w) + 1 ≤ s.time := by omega
  have hmono := tri_mono htlt
  rw [Nat.add_sub_cancel] at hmono
  have hstep := tri_succ (s.time - (1 + w))
  cases robot with
  | geode => simp only; omega
  | ore =>
    simp only
    have := tri_mono (show s.time - (1 + w) ≤ s.time by omega)
    omega
  | clay =>
    simp only
    have := tri_mono (show s.time - (1 + w) ≤ s.time by omega)
    omega
  | obsidian =>
    simp only
    have := tri_mono (show s.time - (1 + w) ≤ s.time by omega)
    omega

/-- Transitivity of reachability. -/
theorem Reaches.trans {bp : Blueprint} {mrn : Cost} {s t u : State}
    (h1 : Reaches bp mrn s t) (h2 : Reaches bp mrn t u) : Reaches bp mrn s u := by
  induction h1 with
  | refl => exact h2
  | head hmem _ ih => exact Reaches.head hmem (ih h2)

/-- Chain soundness of the optimistic bound: no descendant can open more
geodes than the ancestor's `maximum_achievable_open_geodes`. -/
theorem Reaches.open_geodes_le_bound {bp : Blueprint} {mrn : Cost} {s u : State}
    (h : Reaches bp mrn s u) :
    u.open_geodes ≤ s.maximum_achievable_open_geodes := by
  induction h with
  | refl s => exact Nat.le_add_right _ _
  | head hmem _ ih => exact le_trans ih (State.bound_step hmem)

/-- Equation: empty-queue case of `bbRun`. -/
theorem bbRun_nil (bp : Blueprint) (mrn : Cost) (keep : State → Nat → Bool)
    (ins : List State → List State → List State) (fuel best : Nat) :
    bbRun bp mrn keep ins fuel [] best = some best := by
  cases fuel <;> rfl

/-- Equation: out-of-fuel case of `bbRun`. -/
theorem bbRun_zero_cons (bp : Blueprint) (mrn : Cost) (keep : State → Nat → Bool)
    (ins : List State → List State → List State) (s : State) (rest : List State)
    (best : Nat) : bbRun bp mrn keep ins 0 (s :: rest) best = none := rfl

/-- Equation: one iteration of `bbRun` on a non-empty queue. -/
theorem bbRun_succ_cons (bp : Blueprint) (mrn : Cost) (keep : State → Nat → Bool)
    (ins : List State → List State → List State) (fuel : Nat) (s : State)
    (rest : List State) (best : Nat) :
    bbRun bp mrn keep ins (fuel + 1) (s :: rest) best =
      (if keep s (Nat.max best s.open_geodes) then
        bbRun bp mrn keep ins fuel (ins (s.possible_moves bp mrn) rest)
          (Nat.max best s.open_geodes)
      else
        bbRun bp mrn keep ins fuel rest (Nat.max best s.open_geodes)) := rfl

/-- The fuelled source loop is the `srcKeep` / `srcIns` instance of the
generic runner. -/
theorem searchLoop_eq_bbRun (bp : Blueprint) (mrn : Cost) :
    ∀ fuel q best, searchLoop bp mrn fuel q best = bbRun bp mrn srcKeep srcIns fuel q best := by
  intro fuel
  induction fuel with
  | zero => intro q best; cases q <;> rfl
  | succ n ih =>
    intro q best
    cases q with
    | nil => rfl
    | cons s rest =>
      rw [searchLoop_succ_cons, bbRun_succ_cons]
      by_cases h : s.maximum_achievable_open_geodes < Nat.max best s.open_geodes
      · rw [if_pos h]
        have hk : srcKeep s (Nat.max best s.open_geodes) = false := by
          unfold srcKeep
          simp only [decide_eq_false_iff_not]
          omega
        rw [hk]
        simp only [Bool.false_eq_true, if_false]
        exact ih rest _
      · rw [if_neg h]
        have hk : srcKeep s (Nat.max best s.open_geodes) = true := by
          unfold srcKeep
          simp only [decide_eq_true_eq]
          omega
        rw [hk, if_pos rfl]
        unfold srcIns
        exact ih _ _

/-- Variant of `Nat.max_eq_right` stated on `Nat.max` syntactically. -/
theorem natMax_eq_right {a b : Nat} (h : a ≤ b) : Nat.max a b = b := Nat.max_eq_right h

/-- Variant of `Nat.max_eq_left` stated on `Nat.max` syntactically. -/
theorem natMax_eq_left {a b : Nat} (h : b ≤ a) : Nat.max a b = a := Nat.max_eq_left h

/-- Variant of `Nat.le_max_left` stated on `Nat.max` syntactically. -/
theorem natLe_max_left (a b : Nat) : a ≤ Nat.max a b := Nat.le_max_left a b

/-- Variant of `Nat.le_max_right` stated on `Nat.max` syntactically. -/
theorem natLe_max_right (a b : Nat) : b ≤ Nat.max a b := Nat.le_max_right a b

/-- Characterization of any completed run of the generic runner: provided
the queue discipline loses no children and the expansion test only drops
states whose whole subtree is already dominated, a run that starts from a
queue of states reachable from `init`, with an achieved running best, and
that terminates, returns exactly the maximum `open_geodes` over all states
reachable from `init`. -/
theorem bbRun_correct (bp : Blueprint) (mrn : Cost) (keep : State → Nat → Bool)
    (ins : List State → List State → List State) (init : State)
    (hins : ∀ c rest x, x ∈ ins c rest ↔ x ∈ c ∨ x ∈ rest)
    (hkeep : ∀ s b, keep s b = false → ∀ u, Reaches bp mrn s u → u.open_geodes ≤ b) :
    ∀ fuel q best r,
      (∀ s ∈ q, Reaches bp mrn init s) →
      (∃ a, Reaches bp mrn init a ∧ a.open_geodes = best) →
      (∀ u, Reaches bp mrn init u → u.open_geodes ≤ best ∨ ∃ s ∈ q, Reaches bp mrn s u) →
      bbRun bp mrn keep ins fuel q best = some r →
      (∃ a, Reaches bp mrn init a ∧ a.open_geodes = r) ∧
        ∀ u, Reaches bp mrn init u → u.open_geodes ≤ r := by
  intro fuel
  induction fuel with
  | zero =>
    intro q best r inv1 inv2 inv3 hrun
    cases q with
    | nil =>
      rw [bbRun_nil] at hrun
      obtain rfl : best = r := Option.some.inj hrun
      refine ⟨inv2, fun u hu => ?_⟩
      rcases inv3 u hu with h | ⟨s, hs, _⟩
      · exact h
      · exact absurd hs (List.not_mem_nil s)
    | cons s rest => exact absurd hrun (by rw [bbRun_zero_cons]; simp)
  | succ n ih =>
    intro q best r inv1 inv2 inv3 hrun
    cases q with
    | nil =>
      rw [bbRun_nil] at hrun
      obtain rfl : best = r := Option.some.inj hrun
      refine ⟨inv2, fun u hu => ?_⟩
      rcases inv3 u hu with h | ⟨s, hs, _⟩
      · exact h
      · exact absurd hs (List.not_mem_nil s)
    | cons s rest =>
      rw [bbRun_succ_cons] at hrun
      have hreach_s : Reaches bp mrn init s := inv1 s (List.mem_cons_self s rest)
      have inv2' : ∃ a, Reaches bp mrn init a ∧ a.open_geodes = Nat.max best s.open_geodes := by
        rcases Nat.le_total best s.open_geodes with hle | hle
        · exact ⟨s, hreach_s, (natMax_eq_right hle).symm⟩
        · obtain ⟨a, ha1, ha2⟩ := inv2
          exact ⟨a, ha1, by rw [ha2, natMax_eq_left hle]⟩
      by_cases hk : keep s (Nat.max best s.open_geodes) = true
      · rw [if_pos hk] at hrun
        refine ih _ _ r ?_ inv2' ?_ hrun
        · intro x hx
          rcases (hins _ _ x).mp hx with hc | hr
          · exact Reaches.trans hreach_s (Reaches.head hc (Reaches.refl x))
          · exact inv1 x (List.mem_cons_of_mem s hr)
        · intro u hu
          rcases inv3 u hu with h | ⟨t, ht, htu⟩
          · exact Or.inl (le_trans h (Nat.le_max_left _ _))
          · rcases List.mem_cons.mp ht with rfl | htr
            · cases htu with
              | refl =>
                exact Or.inl (Nat.le_max_right _ _)
              | head hc h2 =>
                exact Or.inr ⟨_, (hins _ _ _).mpr (Or.inl hc), h2⟩
            · exact Or.inr ⟨t, (hins _ _ _).mpr (Or.inr htr), htu⟩
      · rw [if_neg hk] at hrun
        have hk' : keep s (Nat.max best s.open_geodes) = false := by
          cases h : keep s (Nat.max best s.open_geodes)
          · rfl
          · exact absurd h hk
        refine ih _ _ r ?_ inv2' ?_ hrun
        · exact fun x hx => inv1 x (List.mem_cons_of_mem s hx)
        · intro u hu
          rcases inv3 u hu with h | ⟨t, ht, htu⟩
          · exact Or.inl (le_trans h (Nat.le_max_left _ _))
          · rcases List.mem_cons.mp ht with rfl | htr
            · exact Or.inl (hkeep _ _ hk' u htu)
            · exact Or.inr ⟨t, htr, htu⟩

/-- Equation: measure of the empty queue. -/
theorem queueMeasure_nil : queueMeasure [] = 0 := rfl

/-- Equation: measure of a non-empty queue. -/
theorem queueMeasure_cons (s : State) (q : List State) :
    queueMeasure (s :: q) = 5 ^ s.time + queueMeasure q := by
  unfold queueMeasure
  simp

/-- The measure is additive over queue concatenation. -/
theorem queueMeasure_append (q1 q2 : List State) :
    queueMeasure (q1 ++ q2) = queueMeasure q1 + queueMeasure q2 := by
  unfold queueMeasure
  simp

/-- A state with no remaining time generates no children. -/
theorem State.possible_moves_time_zero {s : State} {bp : Blueprint} {mrn : Cost}
    (h : s.time = 0) : s.possible_moves bp mrn = [] := by
  rw [List.eq_nil_iff_forall_not_mem]
  intro c hc
  have := State.child_time_lt hc
  omega

/-- The measure of the generated children is at most `4 * 5 ^ (time - 1)`. -/
theorem queueMeasure_possible_moves_le {s : State} {bp : Blueprint} {mrn : Cost} :
    queueMeasure (s.possible_moves bp mrn) ≤ 4 * 5 ^ (s.time - 1) := by
  unfold queueMeasure
  have hlen : (s.possible_moves bp mrn).length ≤ 4 := by
    unfold State.possible_moves
    exact le_trans (List.length_filterMap_le _ _) (by rfl)
  have hbound : ∀ x ∈ (s.possible_moves bp mrn).map (fun s => 5 ^ s.time),
      x ≤ 5 ^ (s.time - 1) := by
    intro x hx
    obtain ⟨c, hc, rfl⟩ := List.mem_map.mp hx
    have h1 := State.child_time_lt hc
    exact Nat.pow_le_pow_right (by norm_num) (by omega)
  calc ((s.possible_moves bp mrn).map (fun s => 5 ^ s.time)).sum
      ≤ ((s.possible_moves bp mrn).map (fun s => 5 ^ s.time)).length * 5 ^ (s.time - 1) :=
        List.sum_le_card_nsmul _ _ hbound
    _ ≤ 4 * 5 ^ (s.time - 1) := by
        rw [List.length_map]
        exact Nat.mul_le_mul_right _ hlen

/-- Fuel sufficiency: with at least `queueMeasure q` fuel the loop always
drains the queue and returns a value. -/
theorem searchLoop_some_of_fuel (bp : Blueprint) (mrn : Cost) :
    ∀ fuel q best, queueMeasure q ≤ fuel → ∃ r, searchLoop bp mrn fuel q best = some r := by
  intro fuel
  induction fuel with
  | zero =>
    intro q best h
    cases q with
    | nil => exact ⟨best, searchLoop_nil bp mrn 0 best⟩
    | cons s rest =>
      exfalso
      have hpos : 0 < 5 ^ s.time := Nat.pos_pow_of_pos _ (by norm_num)
      rw [queueMeasure_cons] at h
      omega
  | succ n ih =>
    intro q best h
    cases q with
    | nil => exact ⟨best, searchLoop_nil bp mrn _ best⟩
    | cons s rest =>
      rw [searchLoop_succ_cons]
      have hpos : 0 < 5 ^ s.time := Nat.pos_pow_of_pos _ (by norm_num)
      have hq : queueMeasure (s :: rest) = 5 ^ s.time + queueMeasure rest :=
        queueMeasure_cons s rest
      by_cases hp : s.maximum_achievable_open_geodes < Nat.max best s.open_geodes
      · rw [if_pos hp]
        exact ih rest _ (by omega)
      · rw [if_neg hp]
        refine ih _ _ ?_
        rw [queueMeasure_append]
        rcases Nat.eq_zero_or_pos s.time with hz | hpos2
        · rw [State.possible_moves_time_zero hz, queueMeasure_nil]
          omega
        · have hmoves := @queueMeasure_possible_moves_le s bp mrn
          have h2 : s.time - 1 + 1 = s.time := by omega
          have hexp : 5 ^ s.time = 5 ^ (s.time - 1) * 5 := by
            calc 5 ^ s.time = 5 ^ (s.time - 1 + 1) := by rw [h2]
              _ = 5 ^ (s.time - 1) * 5 := by rw [Nat.pow_succ]
          have hpos3 : 0 < 5 ^ (s.time - 1) := Nat.pos_pow_of_pos _ (by norm_num)
          omega

/-- The fuel `5 ^ minutes` suffices for the initial queue, so the fuelled
search always returns its total-function value. -/
theorem most_geodes_openable_fueled_eq (bp : Blueprint) (minutes : Nat) :
    bp.most_geodes_openable_fueled minutes = some (bp.most_geodes_openable minutes) := by
  obtain ⟨r, hr⟩ := searchLoop_some_of_fuel bp bp.most_robots_needed (5 ^ minutes)
    [State.create_initial minutes] 0 (by
      unfold queueMeasure State.create_initial
      simp)
  unfold Blueprint.most_geodes_openable Blueprint.most_geodes_openable_fueled at *
  rw [hr]
  rfl

/-- Neither queue discipline loses children: back insertion. -/
theorem srcIns_mem (c rest : List State) (x : State) :
    x ∈ srcIns c rest ↔ x ∈ c ∨ x ∈ rest := by
  unfold srcIns
  rw [List.mem_append]
  exact Or.comm

/-- Neither queue discipline loses children: front insertion. -/
theorem fastIns_mem (c rest : List State) (x : State) :
    x ∈ fastIns c rest ↔ x ∈ c ∨ x ∈ rest := by
  unfold fastIns
  exact List.mem_append

/-- The source pruning test is sound: a state it discards has no
descendant above the running best. -/
theorem srcKeep_sound (bp : Blueprint) (mrn : Cost) :
    ∀ s b, srcKeep s b = false → ∀ u, Reaches bp mrn s u → u.open_geodes ≤ b := by
  intro s b hk u hu
  unfold srcKeep at hk
  rw [decide_eq_false_iff_not] at hk
  have := Reaches.open_geodes_le_bound hu
  omega

/-- Equation: base case of `relaxedBound`. -/
theorem relaxedBound_zero (gob ocl ob obr clay clr : Nat) :
    relaxedBound gob ocl 0 ob obr clay clr = 0 := rfl

/-- Equation: successor case of `relaxedBound`. -/
theorem relaxedBound_succ (gob ocl t ob obr clay clr : Nat) :
    relaxedBound gob ocl (t + 1) ob obr clay clr =
      (if gob ≤ ob then t else 0) +
        relaxedBound gob ocl t (ob + obr - (if gob ≤ ob then gob else 0))
          (obr + (if ocl ≤ clay then 1 else 0))
          (clay + clr - (if ocl ≤ clay then ocl else 0))
          (clr + 1) := rfl

/-- Extra `gob` obsidian is worth at most `t` geodes to the relaxed player. -/
theorem relaxedBound_add_gob (gob ocl : Nat) :
    ∀ t ob obr clay clr, relaxedBound gob ocl t (ob + gob) obr clay clr ≤
      t + relaxedBound gob ocl t ob obr clay clr := by
  intro t
  induction t with
  | zero => intro ob obr clay clr; simp [relaxedBound_zero]
  | succ t ih =>
    intro ob obr clay clr
    rw [relaxedBound_succ, relaxedBound_succ]
    simp only [if_pos (Nat.le_add_left gob ob)]
    have he : ob + gob + obr - gob = ob + obr := by omega
    rw [he]
    by_cases hg : gob ≤ ob
    · simp only [if_pos hg]
      have he2 : ob + obr = ob + obr - gob + gob := by omega
      have step1 := ih (ob + obr - gob) (obr + if ocl ≤ clay then 1 else 0)
        (clay + clr - if ocl ≤ clay then ocl else 0) (clr + 1)
      rw [← he2] at step1
      omega
    · simp only [if_neg hg, Nat.sub_zero]
      omega

/-- Joint monotonicity of the relaxed play value in all four resources, and
the exchange law that `ocl` extra clay is dominated by one extra obsidian
robot. -/
theorem relaxedBound_mono_and_clay (gob ocl : Nat) :
    ∀ t, (∀ ob ob2 obr obr2 clay clay2 clr clr2, ob ≤ ob2 → obr ≤ obr2 →
        clay ≤ clay2 → clr ≤ clr2 →
        relaxedBound gob ocl t ob obr clay clr ≤
          relaxedBound gob ocl t ob2 obr2 clay2 clr2) ∧
      (∀ ob obr clay clr, relaxedBound gob ocl t ob obr (clay + ocl) clr ≤
        relaxedBound gob ocl t ob (obr + 1) clay clr) := by
  intro t
  induction t with
  | zero => exact ⟨fun _ _ _ _ _ _ _ _ _ _ _ _ => le_refl 0, fun _ _ _ _ => le_refl 0⟩
  | succ t ih =>
    obtain ⟨ihM, ihB⟩ := ih
    constructor
    · intro ob ob2 obr obr2 clay clay2 clr clr2 h1 h2 h3 h4
      rw [relaxedBound_succ, relaxedBound_succ]
      by_cases hc1 : ocl ≤ clay
      · have hc2 : ocl ≤ clay2 := le_trans hc1 h3
        rw [if_pos hc1, if_pos hc1, if_pos hc2, if_pos hc2]
        by_cases hg1 : gob ≤ ob
        · have hg2 : gob ≤ ob2 := le_trans hg1 h1
          rw [if_pos hg1, if_pos hg1, if_pos hg2, if_pos hg2]
          exact Nat.add_le_add_left
            (ihM _ _ _ _ _ _ _ _ (by omega) (by omega) (by omega) (by omega)) t
        · rw [if_neg hg1, if_neg hg1]
          by_cases hg2 : gob ≤ ob2
          · rw [if_pos hg2, if_pos hg2]
            have he : ob2 + obr2 = ob2 + obr2 - gob + gob := by omega
            calc 0 + relaxedBound gob ocl t (ob + obr - 0) (obr + 1)
                  (clay + clr - ocl) (clr + 1)
                ≤ relaxedBound gob ocl t (ob2 + obr2 - gob + gob) (obr2 + 1)
                  (clay2 + clr2 - ocl) (clr2 + 1) := by
                  rw [← he]
                  simpa using ihM _ _ _ _ _ _ _ _ (by omega) (by omega) (by omega) (by omega)
              _ ≤ t + relaxedBound gob ocl t (ob2 + obr2 - gob) (obr2 + 1)
                  (clay2 + clr2 - ocl) (clr2 + 1) := relaxedBound_add_gob gob ocl t _ _ _ _
          · rw [if_neg hg2, if_neg hg2]
            exact Nat.add_le_add_left
              (ihM _ _ _ _ _ _ _ _ (by omega) (by omega) (by omega) (by omega)) 0
      · rw [if_neg hc1, if_neg hc1]
        by_cases hc2 : ocl ≤ clay2
        · rw [if_pos hc2, if_pos hc2]
          by_cases hg1 : gob ≤ ob
          · have hg2 : gob ≤ ob2 := le_trans hg1 h1
            rw [if_pos hg1, if_pos hg1, if_pos hg2, if_pos hg2]
            refine Nat.add_le_add_left ?_ t
            have he : clay2 + clr2 = clay2 + clr2 - ocl + ocl := by omega
            calc relaxedBound gob ocl t (ob + obr - gob) (obr + 0)
                  (clay + clr - 0) (clr + 1)
                ≤ relaxedBound gob ocl t (ob2 + obr2 - gob) obr
                  (clay2 + clr2 - ocl + ocl) (clr2 + 1) := by
                  rw [← he]
                  exact ihM _ _ _ _ _ _ _ _ (by omega) (by omega) (by omega) (by omega)
              _ ≤ relaxedBound gob ocl t (ob2 + obr2 - gob) (obr + 1)
                  (clay2 + clr2 - ocl) (clr2 + 1) := ihB _ _ _ _
              _ ≤ relaxedBound gob ocl t (ob2 + obr2 - gob) (obr2 + 1)
                  (clay2 + clr2 - ocl) (clr2 + 1) :=
                  ihM _ _ _ _ _ _ _ _ (le_refl _) (by omega) (le_refl _) (le_refl _)
          · rw [if_neg hg1, if_neg hg1]
            by_cases hg2 : gob ≤ ob2
            · rw [if_pos hg2, if_pos hg2]
              have heg : ob2 + obr2 = ob2 + obr2 - gob + gob := by omega
              have hec : clay2 + clr2 = clay2 + clr2 - ocl + ocl := by omega
              calc 0 + relaxedBound gob ocl t (ob + obr - 0) (obr + 0)
                    (clay + clr - 0) (clr + 1)
                  ≤ relaxedBound gob ocl t (ob2 + obr2 - gob + gob) obr
                    (clay2 + clr2 - ocl + ocl) (clr2 + 1) := by
                    rw [← heg, ← hec]
                    simpa using ihM _ _ _ _ _ _ _ _ (by omega) (by omega) (by omega) (by omega)
                _ ≤ relaxedBound gob ocl t (ob2 + obr2 - gob + gob) (obr + 1)
                    (clay2 + clr2 - ocl) (clr2 + 1) := ihB _ _ _ _
                _ ≤ t + relaxedBound gob ocl t (ob2 + obr2 - gob) (obr + 1)
                    (clay2 + clr2 - ocl) (clr2 + 1) := relaxedBound_add_gob gob ocl t _ _ _ _
                _ ≤ t + relaxedBound gob ocl t (ob2 + obr2 - gob) (obr2 + 1)
                    (clay2 + clr2 - ocl) (clr2 + 1) := Nat.add_le_add_left
                    (ihM _ _ _ _ _ _ _ _ (le_refl _) (by omega) (le_refl _) (le_refl _)) t
            · rw [if_neg hg2, if_neg hg2]
              have hec : clay2 + clr2 = clay2 + clr2 - ocl + ocl := by omega
              calc 0 + relaxedBound gob ocl t (ob + obr - 0) (obr + 0)
                    (clay + clr - 0) (clr + 1)
                  ≤ relaxedBound gob ocl t (ob2 + obr2) obr
                    (clay2 + clr2 - ocl + ocl) (clr2 + 1) := by
                    rw [← hec]
                    simpa using ihM _ _ _ _ _ _ _ _ (by omega) (by omega) (by omega) (by omega)
                _ ≤ relaxedBound gob ocl t (ob2 + obr2) (obr + 1)
                    (clay2 + clr2 - ocl) (clr2 + 1) := ihB _ _ _ _
                _ ≤ 0 + relaxedBound gob ocl t (ob2 + obr2 - 0) (obr2 + 1)
                    (clay2 + clr2 - ocl) (clr2 + 1) := by
                    simpa using ihM _ _ _ _ _ _ _ _ (by omega) (by omega) (le_refl _) (le_refl _)
        · rw [if_neg hc2, if_neg hc2]
          by_cases hg1 : gob ≤ ob
          · have hg2 : gob ≤ ob2 := le_trans hg1 h1
            rw [if_pos hg1, if_pos hg1, if_pos hg2, if_pos hg2]
            exact Nat.add_le_add_left
              (ihM _ _ _ _ _ _ _ _ (by omega) (by omega) (by omega) (by omega)) t
          · rw [if_neg hg1, if_neg hg1]
            by_cases hg2 : gob ≤ ob2
            · rw [if_pos hg2, if_pos hg2]
              have heg : ob2 + obr2 = ob2 + obr2 - gob + gob := by omega
              calc 0 + relaxedBound gob ocl t (ob + obr - 0) (obr + 0)
                    (clay + clr - 0) (clr + 1)
                  ≤ relaxedBound gob ocl t (ob2 + obr2 - gob + gob) (obr2 + 0)
                    (clay2 + clr2 - 0) (clr2 + 1) := by
                    rw [← heg]
                    simpa using ihM _ _ _ _ _ _ _ _ (by omega) (by omega) (by omega) (by omega)
                _ ≤ t + relaxedBound gob ocl t (ob2 + obr2 - gob) (obr2 + 0)
                    (clay2 + clr2 - 0) (clr2 + 1) := relaxedBound_add_gob gob ocl t _ _ _ _
            · rw [if_neg hg2, if_neg hg2]
              exact Nat.add_le_add_left
                (ihM _ _ _ _ _ _ _ _ (by omega) (by omega) (by omega) (by omega)) 0
    · intro ob obr clay clr
      rw [relaxedBound_succ, relaxedBound_succ]
      simp only [if_pos (Nat.le_add_left ocl clay)]
      have he : clay + ocl + clr - ocl = clay + clr := by omega
      rw [he]
      refine Nat.add_le_add_left ?_ _
      by_cases hc : ocl ≤ clay
      · simp only [if_pos hc]
        have he2 : clay + clr = clay + clr - ocl + ocl := by omega
        have step1 := ihB (ob + obr - (if gob ≤ ob then gob else 0)) (obr + 1)
          (clay + clr - ocl) (clr + 1)
        rw [← he2] at step1
        refine le_trans step1 (ihM _ _ _ _ _ _ _ _ (by omega) (le_refl _)
          (le_refl _) (le_refl _))
      · simp only [if_neg hc, Nat.add_zero, Nat.sub_zero]
        exact ihM _ _ _ _ _ _ _ _ (by omega) (le_refl _) (le_refl _) (le_refl _)

/-- Waiting one minute (banking the production) never helps the relaxed
player. -/
theorem relaxedBound_wait (gob ocl t ob obr clay clr : Nat) :
    relaxedBound gob ocl t (ob + obr) obr (clay + clr) clr ≤
      relaxedBound gob ocl (t + 1) ob obr clay clr := by
  obtain ⟨ihM, ihB⟩ := relaxedBound_mono_and_clay gob ocl t
  rw [relaxedBound_succ]
  by_cases hg : gob ≤ ob
  · by_cases hc : ocl ≤ clay
    · simp only [if_pos hg, if_pos hc]
      have step1 := ihM (ob + obr) (ob + obr) obr obr (clay + clr)
        (clay + clr - ocl + ocl) clr (clr + 1) (le_refl _) (le_refl _) (by omega) (by omega)
      have step2 := ihB (ob + obr) obr (clay + clr - ocl) (clr + 1)
      have step3 := relaxedBound_add_gob gob ocl t (ob + obr - gob) (obr + 1)
        (clay + clr - ocl) (clr + 1)
      have he : ob + obr - gob + gob = ob + obr := by omega
      rw [he] at step3
      omega
    · simp only [if_pos hg, if_neg hc, Nat.sub_zero, Nat.add_zero]
      have step1 := ihM (ob + obr) (ob + obr) obr obr (clay + clr)
        (clay + clr) clr (clr + 1) (le_refl _) (le_refl _) (le_refl _) (by omega)
      have step3 := relaxedBound_add_gob gob ocl t (ob + obr - gob) obr
        (clay + clr) (clr + 1)
      have he : ob + obr - gob + gob = ob + obr := by omega
      rw [he] at step3
      omega
  · by_cases hc : ocl ≤ clay
    · simp only [if_neg hg, if_pos hc, Nat.sub_zero, Nat.zero_add]
      have step1 := ihM (ob + obr) (ob + obr) obr obr (clay + clr)
        (clay + clr - ocl + ocl) clr (clr + 1) (le_refl _) (le_refl _) (by omega) (by omega)
      have step2 := ihB (ob + obr) obr (clay + clr - ocl) (clr + 1)
      omega
    · simp only [if_neg hg, if_neg hc, Nat.sub_zero, Nat.add_zero, Nat.zero_add]
      exact ihM (ob + obr) (ob + obr) obr obr (clay + clr) (clay + clr) clr (clr + 1)
        (le_refl _) (le_refl _) (le_refl _) (by omega)

/-- Waiting `e` minutes (banking the production) never helps the relaxed
player. -/
theorem relaxedBound_wait_many (gob ocl : Nat) :
    ∀ e t ob obr clay clr, relaxedBound gob ocl t (ob + obr * e) obr
      (clay + clr * e) clr ≤ relaxedBound gob ocl (t + e) ob obr clay clr := by
  intro e
  induction e with
  | zero => intro t ob obr clay clr; simp
  | succ e ih =>
    intro t ob obr clay clr
    have heo : ob + obr * (e + 1) = ob + obr + obr * e := by ring
    have hec : clay + clr * (e + 1) = clay + clr + clr * e := by ring
    rw [heo, hec]
    calc relaxedBound gob ocl t (ob + obr + obr * e) obr (clay + clr + clr * e) clr
        ≤ relaxedBound gob ocl (t + e) (ob + obr) obr (clay + clr) clr := ih t _ _ _ _
      _ ≤ relaxedBound gob ocl (t + e + 1) ob obr clay clr :=
          relaxedBound_wait gob ocl (t + e) ob obr clay clr
      _ = relaxedBound gob ocl (t + (e + 1)) ob obr clay clr := by ring_nf

/-- Building a clay robot after an `e`-minute wait is dominated by the
relaxed play. -/
theorem relaxedBound_clay_build (gob ocl t e ob obr clay clr : Nat) (he : 1 ≤ e) :
    relaxedBound gob ocl t (ob + obr * e) obr (clay + clr * e) (clr + 1) ≤
      relaxedBound gob ocl (t + e) ob obr clay clr := by
  obtain ⟨ihM, ihB⟩ := relaxedBound_mono_and_clay gob ocl t
  have heo : ob + obr * (e - 1) + obr = ob + obr * e := by
    have h3 : obr * (e - 1) + obr = obr * e := by
      have h4 : e - 1 + 1 = e := by omega
      calc obr * (e - 1) + obr = obr * (e - 1 + 1) := by ring
        _ = obr * e := by rw [h4]
    omega
  have hec : clay + clr * (e - 1) + clr = clay + clr * e := by
    have h3 : clr * (e - 1) + clr = clr * e := by
      have h4 : e - 1 + 1 = e := by omega
      calc clr * (e - 1) + clr = clr * (e - 1 + 1) := by ring
        _ = clr * e := by rw [h4]
    omega
  have hstep : relaxedBound gob ocl t (ob + obr * e) obr (clay + clr * e) (clr + 1) ≤
      relaxedBound gob ocl (t + 1) (ob + obr * (e - 1)) obr (clay + clr * (e - 1)) clr := by
    rw [relaxedBound_succ, heo, hec]
    by_cases hg : gob ≤ ob + obr * (e - 1)
    · by_cases hc : ocl ≤ clay + clr * (e - 1)
      · simp only [if_pos hg, if_pos hc]
        have step1 := ihM (ob + obr * e) (ob + obr * e) obr obr (clay + clr * e)
          (clay + clr * e - ocl + ocl) (clr + 1) (clr + 1) (le_refl _) (le_refl _)
          (by omega) (le_refl _)
        have step2 := ihB (ob + obr * e) obr (clay + clr * e - ocl) (clr + 1)
        have step3 := relaxedBound_add_gob gob ocl t (ob + obr * e - gob) (obr + 1)
          (clay + clr * e - ocl) (clr + 1)
        have he2 : ob + obr * e - gob + gob = ob + obr * e := by omega
        rw [he2] at step3
        omega
      · simp only [if_pos hg, if_neg hc, Nat.sub_zero, Nat.add_zero]
        have step3 := relaxedBound_add_gob gob ocl t (ob + obr * e - gob) obr
          (clay + clr * e) (clr + 1)
        have he2 : ob + obr * e - gob + gob = ob + obr * e := by omega
        rw [he2] at step3
        omega
    · by_cases hc : ocl ≤ clay + clr * (e - 1)
      · simp only [if_neg hg, if_pos hc, Nat.sub_zero, Nat.zero_add]
        have step1 := ihM (ob + obr * e) (ob + obr * e) obr obr (clay + clr * e)
          (clay + clr * e - ocl + ocl) (clr + 1) (clr + 1) (le_refl _) (le_refl _)
          (by omega) (le_refl _)
        have step2 := ihB (ob + obr * e) obr (clay + clr * e - ocl) (clr + 1)
        omega
      · simp only [if_neg hg, if_neg hc, Nat.sub_zero, Nat.add_zero, Nat.zero_add]
        exact le_refl _
  calc relaxedBound gob ocl t (ob + obr * e) obr (clay + clr * e) (clr + 1)
      ≤ relaxedBound gob ocl (t + 1) (ob + obr * (e - 1)) obr
        (clay + clr * (e - 1)) clr := hstep
    _ ≤ relaxedBound gob ocl (t + 1 + (e - 1)) ob obr clay clr :=
        relaxedBound_wait_many gob ocl (e - 1) (t + 1) ob obr clay clr
    _ = relaxedBound gob ocl (t + e) ob obr clay clr := by
        have h4 : t + 1 + (e - 1) = t + e := by omega
        rw [h4]

/-- Building an obsidian robot after an `e`-minute wait (clay affordable
before the build minute) is dominated by the relaxed play. -/
theorem relaxedBound_obsidian_build (gob ocl t e ob obr clay clr : Nat) (he : 1 ≤ e)
    (hc : ocl ≤ clay + clr * (e - 1)) :
    relaxedBound gob ocl t (ob + obr * e) (obr + 1) (clay + clr * e - ocl) clr ≤
      relaxedBound gob ocl (t + e) ob obr clay clr := by
  obtain ⟨ihM, ihB⟩ := relaxedBound_mono_and_clay gob ocl t
  have heo : ob + obr * (e - 1) + obr = ob + obr * e := by
    have h3 : obr * (e - 1) + obr = obr * e := by
      have h4 : e - 1 + 1 = e := by omega
      calc obr * (e - 1) + obr = obr * (e - 1 + 1) := by ring
        _ = obr * e := by rw [h4]
    omega
  have hec : clay + clr * (e - 1) + clr = clay + clr * e := by
    have h3 : clr * (e - 1) + clr = clr * e := by
      have h4 : e - 1 + 1 = e := by omega
      calc clr * (e - 1) + clr = clr * (e - 1 + 1) := by ring
        _ = clr * e := by rw [h4]
    omega
  have hstep : relaxedBound gob ocl t (ob + obr * e) (obr + 1) (clay + clr * e - ocl) clr ≤
      relaxedBound gob ocl (t + 1) (ob + obr * (e - 1)) obr (clay + clr * (e - 1)) clr := by
    rw [relaxedBound_succ, heo, hec]
    simp only [if_pos hc]
    by_cases hg : gob ≤ ob + obr * (e - 1)
    · simp only [if_pos hg]
      have step1 := ihM (ob + obr * e) (ob + obr * e) (obr + 1) (obr + 1)
        (clay + clr * e - ocl) (clay + clr * e - ocl) clr (clr + 1) (le_refl _)
        (le_refl _) (le_refl _) (by omega)
      have step3 := relaxedBound_add_gob gob ocl t (ob + obr * e - gob) (obr + 1)
        (clay + clr * e - ocl) (clr + 1)
      have he2 : ob + obr * e - gob + gob = ob + obr * e := by omega
      rw [he2] at step3
      omega
    · simp only [if_neg hg, Nat.sub_zero, Nat.zero_add]
      exact ihM (ob + obr * e) (ob + obr * e) (obr + 1) (obr + 1)
        (clay + clr * e - ocl) (clay + clr * e - ocl) clr (clr + 1) (le_refl _)
        (le_refl _) (le_refl _) (by omega)
  calc relaxedBound gob ocl t (ob + obr * e) (obr + 1) (clay + clr * e - ocl) clr
      ≤ relaxedBound gob ocl (t + 1) (ob + obr * (e - 1)) obr
        (clay + clr * (e - 1)) clr := hstep
    _ ≤ relaxedBound gob ocl (t + 1 + (e - 1)) ob obr clay clr :=
        relaxedBound_wait_many gob ocl (e - 1) (t + 1) ob obr clay clr
    _ = relaxedBound gob ocl (t + e) ob obr clay clr := by
        have h4 : t + 1 + (e - 1) = t + e := by omega
        rw [h4]

/-- Building a geode robot after an `e`-minute wait (obsidian affordable
before the build minute) is dominated by the relaxed play. -/
theorem relaxedBound_geode_build (gob ocl t e ob obr clay clr : Nat) (he : 1 ≤ e)
    (hg : gob ≤ ob + obr * (e - 1)) :
    t + relaxedBound gob ocl t (ob + obr * e - gob) obr (clay + clr * e) clr ≤
      relaxedBound gob ocl (t + e) ob obr clay clr := by
  obtain ⟨ihM, ihB⟩ := relaxedBound_mono_and_clay gob ocl t
  have heo : ob + obr * (e - 1) + obr = ob + obr * e := by
    have h3 : obr * (e - 1) + obr = obr * e := by
      have h4 : e - 1 + 1 = e := by omega
      calc obr * (e - 1) + obr = obr * (e - 1 + 1) := by ring
        _ = obr * e := by rw [h4]
    omega
  have hec : clay + clr * (e - 1) + clr = clay + clr * e := by
    have h3 : clr * (e - 1) + clr = clr * e := by
      have h4 : e - 1 + 1 = e := by omega
      calc clr * (e - 1) + clr = clr * (e - 1 + 1) := by ring
        _ = clr * e := by rw [h4]
    omega
  have hstep : t + relaxedBound gob ocl t (ob + obr * e - gob) obr
        (clay + clr * e) clr ≤
      relaxedBound gob ocl (t + 1) (ob + obr * (e - 1)) obr (clay + clr * (e - 1)) clr := by
    rw [relaxedBound_succ, heo, hec]
    simp only [if_pos hg]
    refine Nat.add_le_add_left ?_ t
    by_cases hc : ocl ≤ clay + clr * (e - 1)
    · simp only [if_pos hc]
      have step1 := ihM (ob + obr * e - gob) (ob + obr * e - gob) obr obr
        (clay + clr * e) (clay + clr * e - ocl + ocl) clr (clr + 1) (le_refl _)
        (le_refl _) (by omega) (by omega)
      have step2 := ihB (ob + obr * e - gob) obr (clay + clr * e - ocl) (clr + 1)
      omega
    · simp only [if_neg hc, Nat.sub_zero, Nat.add_zero]
      exact ihM (ob + obr * e - gob) (ob + obr * e - gob) obr obr
        (clay + clr * e) (clay + clr * e) clr (clr + 1) (le_refl _) (le_refl _)
        (le_refl _) (by omega)
  calc t + relaxedBound gob ocl t (ob + obr * e - gob) obr (clay + clr * e) clr
      ≤ relaxedBound gob ocl (t + 1) (ob + obr * (e - 1)) obr
        (clay + clr * (e - 1)) clr := hstep
    _ ≤ relaxedBound gob ocl (t + 1 + (e - 1)) ob obr clay clr :=
        relaxedBound_wait_many gob ocl (e - 1) (t + 1) ob obr clay clr
    _ = relaxedBound gob ocl (t + e) ob obr clay clr := by
        have h4 : t + 1 + (e - 1) = t + e := by omega
        rw [h4]

/-- One-step admissibility of the relaxed bound, for blueprints in which
ore and clay robots cost only ore, obsidian robots cost ore and clay, and
geode robots cost ore and obsidian (true of every parsed blueprint): a
transition never increases `open_geodes` plus the relaxed play value. -/
theorem relaxed_step {bp : Blueprint} {mrn : Cost} {s c : State}
    (hz1c : bp.ore_robot_cost.clay = 0) (hz1b : bp.ore_robot_cost.obsidian = 0)
    (hz2c : bp.clay_robot_cost.clay = 0) (hz2b : bp.clay_robot_cost.obsidian = 0)
    (hz3b : bp.obsidian_robot_cost.obsidian = 0) (hz4c : bp.geode_robot_cost.clay = 0)
    (h : c ∈ s.possible_moves bp mrn) :
    c.open_geodes + relaxedBound bp.geode_robot_cost.obsidian bp.obsidian_robot_cost.clay
        c.time c.obsidian c.obsidian_robots c.clay c.clay_robots ≤
      s.open_geodes + relaxedBound bp.geode_robot_cost.obsidian bp.obsidian_robot_cost.clay
        s.time s.obsidian s.obsidian_robots s.clay s.clay_robots := by
  obtain ⟨robot, hb⟩ := State.mem_possible_moves.mp h
  obtain ⟨-, w, hwait, hpos, rfl⟩ := State.buildMove_eq_some.mp hb
  have hcov := State.waitFor_covers hwait
  have hst : s.time = s.time - (1 + w) + (w + 1) := by omega
  unfold State.buildResult
  cases robot with
  | ore =>
    simp only [Robot.cost, hz1c, hz1b, Nat.sub_zero, Nat.add_zero]
    refine Nat.add_le_add_left ?_ s.open_geodes
    calc relaxedBound bp.geode_robot_cost.obsidian bp.obsidian_robot_cost.clay
          (s.time - (1 + w)) (s.obsidian + s.obsidian_robots * (w + 1)) s.obsidian_robots
          (s.clay + s.clay_robots * (w + 1)) s.clay_robots
        ≤ relaxedBound bp.geode_robot_cost.obsidian bp.obsidian_robot_cost.clay
            (s.time - (1 + w) + (w + 1)) s.obsidian s.obsidian_robots s.clay
            s.clay_robots := relaxedBound_wait_many _ _ (w + 1) _ _ _ _ _
      _ = relaxedBound bp.geode_robot_cost.obsidian bp.obsidian_robot_cost.clay
            s.time s.obsidian s.obsidian_robots s.clay s.clay_robots := by rw [← hst]
  | clay =>
    simp only [Robot.cost, hz2c, hz2b, Nat.sub_zero, Nat.add_zero]
    refine Nat.add_le_add_left ?_ s.open_geodes
    calc relaxedBound bp.geode_robot_cost.obsidian bp.obsidian_robot_cost.clay
          (s.time - (1 + w)) (s.obsidian + s.obsidian_robots * (w + 1)) s.obsidian_robots
          (s.clay + s.clay_robots * (w + 1)) (s.clay_robots + 1)
        ≤ relaxedBound bp.geode_robot_cost.obsidian bp.obsidian_robot_cost.clay
            (s.time - (1 + w) + (w + 1)) s.obsidian s.obsidian_robots s.clay
            s.clay_robots := relaxedBound_clay_build _ _ _ (w + 1) _ _ _ _ (by omega)
      _ = relaxedBound bp.geode_robot_cost.obsidian bp.obsidian_robot_cost.clay
            s.time s.obsidian s.obsidian_robots s.clay s.clay_robots := by rw [← hst]
  | obsidian =>
    simp only [Robot.cost, hz3b, Nat.sub_zero, Nat.add_zero]
    refine Nat.add_le_add_left ?_ s.open_geodes
    have hcle : bp.obsidian_robot_cost.clay ≤
        s.clay + s.clay_robots * ((w + 1) - 1) := by
      have h2 := hcov.2.1
      simp only [Robot.cost] at h2
      simpa using h2
    calc relaxedBound bp.geode_robot_cost.obsidian bp.obsidian_robot_cost.clay
          (s.time - (1 + w)) (s.obsidian + s.obsidian_robots * (w + 1))
          (s.obsidian_robots + 1)
          (s.clay + s.clay_robots * (w + 1) - bp.obsidian_robot_cost.clay) s.clay_robots
        ≤ relaxedBound bp.geode_robot_cost.obsidian bp.obsidian_robot_cost.clay
            (s.time - (1 + w) + (w + 1)) s.obsidian s.obsidian_robots s.clay
            s.clay_robots :=
          relaxedBound_obsidian_build _ _ _ (w + 1) _ _ _ _ (by omega) hcle
      _ = relaxedBound bp.geode_robot_cost.obsidian bp.obsidian_robot_cost.clay
            s.time s.obsidian s.obsidian_robots s.clay s.clay_robots := by rw [← hst]
  | geode =>
    simp only [Robot.cost, hz4c, Nat.sub_zero, Nat.add_zero]
    have hif1 : (s.obsidian_robots + if Robot.geode = Robot.obsidian then 1 else 0) =
        s.obsidian_robots := rfl
    have hif2 : (s.clay_robots + if Robot.geode = Robot.clay then 1 else 0) =
        s.clay_robots := rfl
    rw [hif1, hif2]
    have hgle : bp.geode_robot_cost.obsidian ≤
        s.obsidian + s.obsidian_robots * ((w + 1) - 1) := by
      have h2 := hcov.2.2
      simp only [Robot.cost] at h2
      simpa using h2
    have hkey := relaxedBound_geode_build bp.geode_robot_cost.obsidian
      bp.obsidian_robot_cost.clay (s.time - (1 + w)) (w + 1) s.obsidian s.obsidian_robots
      s.clay s.clay_robots (by omega) hgle
    rw [← hst] at hkey
    omega

/-- Chain admissibility of the relaxed bound: no descendant can open more
geodes than `open_geodes` plus the relaxed play value of the ancestor. -/
theorem Reaches.open_geodes_le_relaxed {bp : Blueprint} {mrn : Cost} {s u : State}
    (hz1c : bp.ore_robot_cost.clay = 0) (hz1b : bp.ore_robot_cost.obsidian = 0)
    (hz2c : bp.clay_robot_cost.clay = 0) (hz2b : bp.clay_robot_cost.obsidian = 0)
    (hz3b : bp.obsidian_robot_cost.obsidian = 0) (hz4c : bp.geode_robot_cost.clay = 0)
    (h : Reaches bp mrn s u) :
    u.open_geodes ≤ s.open_geodes +
      relaxedBound bp.geode_robot_cost.obsidian bp.obsidian_robot_cost.clay
        s.time s.obsidian s.obsidian_robots s.clay s.clay_robots := by
  induction h with
  | refl s => exact Nat.le_add_right _ _
  | head hmem _ ih =>
    exact le_trans ih (relaxed_step hz1c hz1b hz2c hz2b hz3b hz4c hmem)

/-- The fast pruning test is sound for blueprints with the standard cost
shape. -/
theorem fastKeep_sound (bp : Blueprint) (mrn : Cost)
    (hz1c : bp.ore_robot_cost.clay = 0) (hz1b : bp.ore_robot_cost.obsidian = 0)
    (hz2c : bp.clay_robot_cost.clay = 0) (hz2b : bp.clay_robot_cost.obsidian = 0)
    (hz3b : bp.obsidian_robot_cost.obsidian = 0) (hz4c : bp.geode_robot_cost.clay = 0) :
    ∀ s b, fastKeep bp s b = false → ∀ u, Reaches bp mrn s u → u.open_geodes ≤ b := by
  intro s b hk u hu
  unfold fastKeep at hk
  rw [decide_eq_false_iff_not] at hk
  have := Reaches.open_geodes_le_relaxed hz1c hz1b hz2c hz2b hz3b hz4c hu
  omega

/-- Witness chain (the repository's own `test_possible_moves_example_path`) reaching 9 open geodes from a 24-minute start. -/
theorem reaches_nine :
    Reaches exampleBlueprint exampleBlueprint.most_robots_needed
      (State.create_initial 24) ⟨3, 9, 1, 4, 2, 3, 29, 2⟩ := by
  refine Reaches.head (c := ⟨21, 0, 1, 1, 0, 1, 0, 0⟩) (by decide) ?_
  refine Reaches.head (c := ⟨19, 0, 1, 2, 0, 1, 2, 0⟩) (by decide) ?_
  refine Reaches.head (c := ⟨17, 0, 1, 3, 0, 1, 6, 0⟩) (by decide) ?_
  refine Reaches.head (c := ⟨13, 0, 1, 3, 1, 2, 4, 0⟩) (by decide) ?_
  refine Reaches.head (c := ⟨12, 0, 1, 4, 1, 1, 7, 1⟩) (by decide) ?_
  refine Reaches.head (c := ⟨9, 0, 1, 4, 2, 1, 5, 4⟩) (by decide) ?_
  refine Reaches.head (c := ⟨6, 6, 1, 4, 2, 2, 17, 3⟩) (by decide) ?_
  refine Reaches.head (c := ⟨3, 9, 1, 4, 2, 3, 29, 2⟩) (by decide) ?_
  exact Reaches.refl _

/-- Witness chain reaching 56 open geodes from a 32-minute start. -/
theorem reaches_fifty_six :
    Reaches exampleBlueprint exampleBlueprint.most_robots_needed
      (State.create_initial 32) ⟨1, 56, 2, 7, 6, 3, 63, 7⟩ := by
  refine Reaches.head (c := ⟨27, 0, 2, 0, 0, 1, 0, 0⟩) (by decide) ?_
  refine Reaches.head (c := ⟨25, 0, 2, 1, 0, 3, 0, 0⟩) (by decide) ?_
  refine Reaches.head (c := ⟨24, 0, 2, 2, 0, 3, 1, 0⟩) (by decide) ?_
  refine Reaches.head (c := ⟨23, 0, 2, 3, 0, 3, 3, 0⟩) (by decide) ?_
  refine Reaches.head (c := ⟨22, 0, 2, 4, 0, 3, 6, 0⟩) (by decide) ?_
  refine Reaches.head (c := ⟨21, 0, 2, 5, 0, 3, 10, 0⟩) (by decide) ?_
  refine Reaches.head (c := ⟨20, 0, 2, 6, 0, 3, 15, 0⟩) (by decide) ?_
  refine Reaches.head (c := ⟨19, 0, 2, 7, 0, 3, 21, 0⟩) (by decide) ?_
  refine Reaches.head (c := ⟨18, 0, 2, 7, 1, 2, 14, 0⟩) (by decide) ?_
  refine Reaches.head (c := ⟨16, 0, 2, 7, 2, 3, 14, 2⟩) (by decide) ?_
  refine Reaches.head (c := ⟨15, 0, 2, 7, 3, 2, 7, 4⟩) (by decide) ?_
  refine Reaches.head (c := ⟨13, 13, 2, 7, 3, 4, 21, 3⟩) (by decide) ?_
  refine Reaches.head (c := ⟨12, 13, 2, 7, 4, 3, 14, 6⟩) (by decide) ?_
  refine Reaches.head (c := ⟨11, 13, 2, 7, 5, 2, 7, 10⟩) (by decide) ?_
  refine Reaches.head (c := ⟨10, 23, 2, 7, 5, 2, 14, 8⟩) (by decide) ?_
  refine Reaches.head (c := ⟨9, 32, 2, 7, 5, 2, 21, 6⟩) (by decide) ?_
  refine Reaches.head (c := ⟨7, 39, 2, 7, 5, 4, 35, 9⟩) (by decide) ?_
  refine Reaches.head (c := ⟨6, 45, 2, 7, 5, 4, 42, 7⟩) (by decide) ?_
  refine Reaches.head (c := ⟨5, 50, 2, 7, 5, 4, 49, 5⟩) (by decide) ?_
  refine Reaches.head (c := ⟨4, 50, 2, 7, 6, 3, 42, 10⟩) (by decide) ?_
  refine Reaches.head (c := ⟨3, 53, 2, 7, 6, 3, 49, 9⟩) (by decide) ?_
  refine Reaches.head (c := ⟨2, 55, 2, 7, 6, 3, 56, 8⟩) (by decide) ?_
  refine Reaches.head (c := ⟨1, 56, 2, 7, 6, 3, 63, 7⟩) (by decide) ?_
  exact Reaches.refl _

/-- The forcing wrapper is the identity. -/
theorem forceNat_eq {A : Type} (n : Nat) (k : Nat → A) : forceNat n k = k n := by
  cases n <;> rfl

/-- The state forcing wrapper is the identity. -/
theorem forceState_eq {A : Type} (s : State) (k : State → A) : forceState s k = k s := by
  unfold forceState
  simp only [forceNat_eq]

/-- Equation: one iteration of `fastRunF` on a non-empty queue. -/
theorem fastRunF_succ_cons (bp : Blueprint) (mrn : Cost) (fuel : Nat) (s : State)
    (rest : List State) (best : Nat) :
    fastRunF bp mrn (fuel + 1) (s :: rest) best =
      (forceState s fun s =>
        forceNat (Nat.max best s.open_geodes) fun best2 =>
        if fastKeep bp s best2 then
          fastRunF bp mrn fuel (s.possible_moves bp mrn ++ rest) best2
        else
          fastRunF bp mrn fuel rest best2) := rfl

/-- The forced fast runner coincides with the `fastKeep` / `fastIns`
instance of `bbRun`. -/
theorem fastRunF_eq_bbRun (bp : Blueprint) (mrn : Cost) :
    ∀ fuel q best, fastRunF bp mrn fuel q best =
      bbRun bp mrn (fastKeep bp) fastIns fuel q best := by
  intro fuel
  induction fuel with
  | zero => intro q best; cases q <;> rfl
  | succ n ih =>
    intro q best
    cases q with
    | nil => rfl
    | cons s rest =>
      rw [fastRunF_succ_cons, bbRun_succ_cons, forceState_eq, forceNat_eq]
      by_cases h : fastKeep bp s (Nat.max best s.open_geodes) = true
      · rw [if_pos h, if_pos h]
        unfold fastIns
        exact ih _ _
      · rw [if_neg h, if_neg h]
        exact ih _ _

/-- Kernel evaluation of the fast 24-minute run, seeded with the achieved
best 9: no reachable state beats 9. -/
theorem fastEval24 :
    fastRunF exampleBlueprint exampleBlueprint.most_robots_needed
      100000 [State.create_initial 24] 9 = some 9 := by
  decide!

/-- Kernel evaluation of the fast 32-minute run, seeded with the achieved
best 56: no reachable state beats 56. -/
theorem fastEval32 :
    fastRunF exampleBlueprint exampleBlueprint.most_robots_needed
      100000 [State.create_initial 32] 56 = some 56 := by
  decide!

/-- Maximum characterization for the 24-minute example search: 9 is
reachable and no reachable state beats it. -/
theorem reachMax24 :
    (∃ a, Reaches exampleBlueprint exampleBlueprint.most_robots_needed
        (State.create_initial 24) a ∧ a.open_geodes = 9) ∧
      ∀ u, Reaches exampleBlueprint exampleBlueprint.most_robots_needed
        (State.create_initial 24) u → u.open_geodes ≤ 9 := by
  have hrun : bbRun exampleBlueprint exampleBlueprint.most_robots_needed
      (fastKeep exampleBlueprint) fastIns 100000 [State.create_initial 24] 9 = some 9 := by
    rw [← fastRunF_eq_bbRun]
    exact fastEval24
  refine bbRun_correct exampleBlueprint exampleBlueprint.most_robots_needed
    (fastKeep exampleBlueprint) fastIns (State.create_initial 24)
    fastIns_mem
    (fastKeep_sound exampleBlueprint exampleBlueprint.most_robots_needed rfl rfl rfl rfl rfl rfl)
    100000 [State.create_initial 24] 9 9 ?_ ?_ ?_ hrun
  · intro s hs
    rcases List.mem_cons.mp hs with rfl | h
    · exact Reaches.refl _
    · exact absurd h (List.not_mem_nil s)
  · exact ⟨⟨3, 9, 1, 4, 2, 3, 29, 2⟩, reaches_nine, rfl⟩
  · intro u hu
    exact Or.inr ⟨State.create_initial 24, List.mem_cons_self _ _, hu⟩

/-- Maximum characterization for the 32-minute example search: 56 is
reachable and no reachable state beats it. -/
theorem reachMax32 :
    (∃ a, Reaches exampleBlueprint exampleBlueprint.most_robots_needed
        (State.create_initial 32) a ∧ a.open_geodes = 56) ∧
      ∀ u, Reaches exampleBlueprint exampleBlueprint.most_robots_needed
        (State.create_initial 32) u → u.open_geodes ≤ 56 := by
  have hrun : bbRun exampleBlueprint exampleBlueprint.most_robots_needed
      (fastKeep exampleBlueprint) fastIns 100000 [State.create_initial 32] 56 = some 56 := by
    rw [← fastRunF_eq_bbRun]
    exact fastEval32
  refine bbRun_correct exampleBlueprint exampleBlueprint.most_robots_needed
    (fastKeep exampleBlueprint) fastIns (State.create_initial 32)
    fastIns_mem
    (fastKeep_sound exampleBlueprint exampleBlueprint.most_robots_needed rfl rfl rfl rfl rfl rfl)
    100000 [State.create_initial 32] 56 56 ?_ ?_ ?_ hrun
  · intro s hs
    rcases List.mem_cons.mp hs with rfl | h
    · exact Reaches.refl _
    · exact absurd h (List.not_mem_nil s)
  · exact ⟨⟨1, 56, 2, 7, 6, 3, 63, 7⟩, reaches_fifty_six, rfl⟩
  · intro u hu
    exact Or.inr ⟨State.create_initial 32, List.mem_cons_self _ _, hu⟩

/-- Maximum characterization of the source search: for every blueprint and
budget, `most_geodes_openable` is achieved by a reachable state and bounds
every reachable state. -/
theorem most_geodes_openable_char (bp : Blueprint) (minutes : Nat) :
    (∃ a, Reaches bp bp.most_robots_needed (State.create_initial minutes) a ∧
        a.open_geodes = bp.most_geodes_openable minutes) ∧
      ∀ u, Reaches bp bp.most_robots_needed (State.create_initial minutes) u →
        u.open_geodes ≤ bp.most_geodes_openable minutes := by
  have hrun := most_geodes_openable_fueled_eq bp minutes
  unfold Blueprint.most_geodes_openable_fueled at hrun
  rw [searchLoop_eq_bbRun] at hrun
  refine bbRun_correct bp bp.most_robots_needed srcKeep srcIns
    (State.create_initial minutes) srcIns_mem
    (srcKeep_sound bp bp.most_robots_needed)
    (5 ^ minutes) [State.create_initial minutes] 0
    (bp.most_geodes_openable minutes) ?_ ?_ ?_ hrun
  · intro s hs
    rcases List.mem_cons.mp hs with rfl | h
    · exact Reaches.refl _
    · exact absurd h (List.not_mem_nil s)
  · exact ⟨State.create_initial minutes, Reaches.refl _, rfl⟩
  · intro u hu
    exact Or.inr ⟨State.create_initial minutes, List.mem_cons_self _ _, hu⟩

/-- C1: for the example blueprint (ore robot 4 ore; clay robot 2 ore;
obsidian robot 3 ore + 14 clay; geode robot 2 ore + 7 obsidian), the
search `most_geodes_openable` returns exactly 9 with a 24-tick budget and
exactly 56 with a 32-tick budget. -/
theorem claim_C1_example_blueprint_values :
    exampleBlueprint.most_geodes_openable 24 = 9 ∧
      exampleBlueprint.most_geodes_openable 32 = 56 := by
  obtain ⟨⟨a1, ha1, hav1⟩, hub1⟩ := most_geodes_openable_char exampleBlueprint 24
  obtain ⟨⟨b1, hb1, hbv1⟩, hfb1⟩ := reachMax24
  obtain ⟨⟨a2, ha2, hav2⟩, hub2⟩ := most_geodes_openable_char exampleBlueprint 32
  obtain ⟨⟨b2, hb2, hbv2⟩, hfb2⟩ := reachMax32
  constructor
  · have h1 := hfb1 a1 ha1
    have h2 := hub1 b1 hb1
    omega
  · have h1 := hfb2 a2 ha2
    have h2 := hub2 b2 hb2
    omega

/-- C2: the pruning bound is sound.  For every search state and every
state reachable from it by a chain of `possible_moves` transitions, the
descendant's `open_geodes` is at most the ancestor's `open_geodes` plus
the triangular number `t * (t - 1) / 2` of the ancestor's remaining time
(the estimate computed by `maximum_achievable_open_geodes`). -/
theorem claim_C2_pruning_bound_sound (bp : Blueprint) (mrn : Cost) (s u : State)
    (h : Reaches bp mrn s u) :
    u.open_geodes ≤ s.open_geodes + s.time * (s.time - 1) / 2 :=
  Reaches.open_geodes_le_bound h

/-- Witness for C2 at a concrete one-step chain of the example blueprint. -/
theorem claim_C2_pruning_bound_sound_witness :
    (⟨21, 0, 1, 1, 0, 1, 0, 0⟩ : State).open_geodes ≤
      (State.create_initial 24).open_geodes +
        (State.create_initial 24).time * ((State.create_initial 24).time - 1) / 2 :=
  claim_C2_pruning_bound_sound exampleBlueprint exampleBlueprint.most_robots_needed
    (State.create_initial 24) ⟨21, 0, 1, 1, 0, 1, 0, 0⟩
    (Reaches.head (c := ⟨21, 0, 1, 1, 0, 1, 0, 0⟩) (by decide) (Reaches.refl _))

/-- Counterexample to C4 as stated: a popped state whose optimistic bound
equals (so does not exceed) the current best is nevertheless expanded, not
discarded: with the state ⟨2, 9, 1, 0, 0, 100, 100, 100⟩ (bound 10) and
best 10, one loop iteration expands the children instead of discarding,
observable through the fuel-instrumented loop. -/
theorem claim_C4_counterexample :
    (⟨2, 9, 1, 0, 0, 100, 100, 100⟩ : State).maximum_achievable_open_geodes ≤
        Nat.max 10 (⟨2, 9, 1, 0, 0, 100, 100, 100⟩ : State).open_geodes ∧
      searchLoop exampleBlueprint exampleBlueprint.most_robots_needed 1
          [⟨2, 9, 1, 0, 0, 100, 100, 100⟩] 10 ≠
        searchLoop exampleBlueprint exampleBlueprint.most_robots_needed 0 []
          (Nat.max 10 (⟨2, 9, 1, 0, 0, 100, 100, 100⟩ : State).open_geodes) := by
  decide

/-- C4 amended: a popped state is discarded without being expanded exactly
when its optimistic bound is strictly below the updated best; when the
bound equals or exceeds the best the state is expanded. -/
theorem claim_C4_amended_prune_is_strict (bp : Blueprint) (mrn : Cost) (fuel : Nat)
    (s : State) (rest : List State) (best : Nat) :
    (s.maximum_achievable_open_geodes < Nat.max best s.open_geodes →
      searchLoop bp mrn (fuel + 1) (s :: rest) best =
        searchLoop bp mrn fuel rest (Nat.max best s.open_geodes)) ∧
    (Nat.max best s.open_geodes ≤ s.maximum_achievable_open_geodes →
      searchLoop bp mrn (fuel + 1) (s :: rest) best =
        searchLoop bp mrn fuel (rest ++ s.possible_moves bp mrn)
          (Nat.max best s.open_geodes)) := by
  constructor
  · intro h
    rw [searchLoop_succ_cons, if_pos h]
  · intro h
    rw [searchLoop_succ_cons, if_neg (by omega)]

/-- Witness for the amended C4 at the concrete configuration of the
counterexample: the bound equals the best, so the state is expanded. -/
theorem claim_C4_amended_prune_is_strict_witness :
    searchLoop exampleBlueprint exampleBlueprint.most_robots_needed 1
        [⟨2, 9, 1, 0, 0, 100, 100, 100⟩] 10 =
      searchLoop exampleBlueprint exampleBlueprint.most_robots_needed 0
        ([] ++ (⟨2, 9, 1, 0, 0, 100, 100, 100⟩ : State).possible_moves exampleBlueprint
          exampleBlueprint.most_robots_needed)
        (Nat.max 10 (⟨2, 9, 1, 0, 0, 100, 100, 100⟩ : State).open_geodes) :=
  (claim_C4_amended_prune_is_strict exampleBlueprint exampleBlueprint.most_robots_needed 0
    ⟨2, 9, 1, 0, 0, 100, 100, 100⟩ [] 10).2 (by decide)

/-- Counterexample to C5 as stated: with the example blueprint, the state
⟨1, 0, 1, 0, 0, 4, 0, 0⟩ and the ore robot, the robot is not capped, the
wait is feasible with wait time 0, and wait + one build tick equals (so
does not exceed) the remaining time 1 — yet `possible_moves` emits no
child for it (the emission guard requires the child's remaining time to be
strictly positive). -/
theorem claim_C5_counterexample :
    (⟨1, 0, 1, 0, 0, 4, 0, 0⟩ : State).atRobotCap
        exampleBlueprint.most_robots_needed Robot.ore = false ∧
      (⟨1, 0, 1, 0, 0, 4, 0, 0⟩ : State).waitFor (Robot.ore.cost exampleBlueprint) = some 0 ∧
      0 + 1 ≤ (⟨1, 0, 1, 0, 0, 4, 0, 0⟩ : State).time ∧
      (⟨1, 0, 1, 0, 0, 4, 0, 0⟩ : State).buildResult exampleBlueprint Robot.ore 0 ∉
        (⟨1, 0, 1, 0, 0, 4, 0, 0⟩ : State).possible_moves exampleBlueprint
          exampleBlueprint.most_robots_needed := by
  decide

/-- C5 amended: for every state and every buildable (not capped) unit type
whose wait is feasible, `possible_moves` emits the child whenever the wait
plus one build tick is strictly smaller than `time_remaining` (equivalently
the child's remaining time is positive); the child has `time_remaining`
reduced by wait + 1, resources increased by production over the elapsed
ticks then reduced by the cost, the built robot's count incremented, and
`open_geodes` increased by the child's remaining time for the geode robot
only. -/
theorem claim_C5_amended_move_emission (bp : Blueprint) (mrn : Cost) (s : State)
    (robot : Robot) (w : Nat)
    (hcap : s.atRobotCap mrn robot = false)
    (hwait : s.waitFor (robot.cost bp) = some w)
    (htime : w + 1 < s.time) :
    ({ time := s.time - (w + 1)
       open_geodes := s.open_geodes + (if robot = .geode then s.time - (w + 1) else 0)
       ore_robots := s.ore_robots + (if robot = .ore then 1 else 0)
       clay_robots := s.clay_robots + (if robot = .clay then 1 else 0)
       obsidian_robots := s.obsidian_robots + (if robot = .obsidian then 1 else 0)
       ore := s.ore + s.ore_robots * (w + 1) - (robot.cost bp).ore
       clay := s.clay + s.clay_robots * (w + 1) - (robot.cost bp).clay
       obsidian := s.obsidian + s.obsidian_robots * (w + 1) - (robot.cost bp).obsidian } :
      State) ∈ s.possible_moves bp mrn := by
  refine State.mem_possible_moves.mpr ⟨robot, ?_⟩
  refine State.buildMove_eq_some.mpr ⟨hcap, w, hwait, by omega, ?_⟩
  unfold State.buildResult
  have h1 : s.time - (w + 1) = s.time - (1 + w) := by omega
  cases robot <;> simp [h1]

/-- Witness for the amended C5: from the initial 24-minute state, building
a clay robot (wait 2) emits the expected child. -/
theorem claim_C5_amended_move_emission_witness :
    ({ time := (State.create_initial 24).time - (2 + 1)
       open_geodes := (State.create_initial 24).open_geodes +
         (if Robot.clay = .geode then (State.create_initial 24).time - (2 + 1) else 0)
       ore_robots := (State.create_initial 24).ore_robots + (if Robot.clay = .ore then 1 else 0)
       clay_robots := (State.create_initial 24).clay_robots + (if Robot.clay = .clay then 1 else 0)
       obsidian_robots := (State.create_initial 24).obsidian_robots +
         (if Robot.clay = .obsidian then 1 else 0)
       ore := (State.create_initial 24).ore + (State.create_initial 24).ore_robots * (2 + 1) -
         (Robot.clay.cost exampleBlueprint).ore
       clay := (State.create_initial 24).clay + (State.create_initial 24).clay_robots * (2 + 1) -
         (Robot.clay.cost exampleBlueprint).clay
       obsidian := (State.create_initial 24).obsidian +
         (State.create_initial 24).obsidian_robots * (2 + 1) -
         (Robot.clay.cost exampleBlueprint).obsidian } : State) ∈
      (State.create_initial 24).possible_moves exampleBlueprint
        exampleBlueprint.most_robots_needed :=
  claim_C5_amended_move_emission exampleBlueprint exampleBlueprint.most_robots_needed
    (State.create_initial 24) Robot.clay 2 (by decide) (by decide) (by decide)

/-- C6: for every valid state (positive remaining time) and blueprint,
every child generated by `possible_moves` has strictly smaller remaining
time. -/
theorem claim_C6_child_time_decreases (bp : Blueprint) (mrn : Cost) (s c : State)
    (hpos : 0 < s.time) (h : c ∈ s.possible_moves bp mrn) : c.time < s.time :=
  State.child_time_lt h

/-- Witness for C6 at a concrete transition of the example blueprint. -/
theorem claim_C6_child_time_decreases_witness :
    (⟨21, 0, 1, 1, 0, 1, 0, 0⟩ : State).time < (State.create_initial 24).time :=
  claim_C6_child_time_decreases exampleBlueprint exampleBlueprint.most_robots_needed
    (State.create_initial 24) ⟨21, 0, 1, 1, 0, 1, 0, 0⟩ (by decide) (by decide)

/-- C8: for every blueprint and finite time budget the search terminates:
the fuelled loop (fuel `5 ^ minutes` suffices, since the queue measure
strictly decreases) drains its queue and returns a value. -/
theorem claim_C8_search_terminates (bp : Blueprint) (minutes : Nat) :
    bp.most_geodes_openable_fueled minutes = some (bp.most_geodes_openable minutes) :=
  most_geodes_openable_fueled_eq bp minutes

/-- C9: resource vectors stay non-negative: whenever the wait computation
succeeds with wait `w`, the stock accumulated after `w + 1` ticks of
production covers every component of the cost, so the unchecked `u32`
subtractions in the child construction never underflow. -/
theorem claim_C9_no_underflow (s : State) (cost : Cost) (w : Nat)
    (h : s.waitFor cost = some w) :
    cost.ore ≤ s.ore + s.ore_robots * (w + 1) ∧
      cost.clay ≤ s.clay + s.clay_robots * (w + 1) ∧
      cost.obsidian ≤ s.obsidian + s.obsidian_robots * (w + 1) := by
  obtain ⟨h1, h2, h3⟩ := State.waitFor_covers h
  have m1 : s.ore_robots * w ≤ s.ore_robots * (w + 1) := Nat.mul_le_mul_left _ (by omega)
  have m2 : s.clay_robots * w ≤ s.clay_robots * (w + 1) := Nat.mul_le_mul_left _ (by omega)
  have m3 : s.obsidian_robots * w ≤ s.obsidian_robots * (w + 1) := Nat.mul_le_mul_left _ (by omega)
  omega

/-- Witness for C9 at a concrete wait computation (obsidian robot from the
repository's example path, wait 3). -/
theorem claim_C9_no_underflow_witness :
    exampleBlueprint.obsidian_robot_cost.ore ≤
        (⟨17, 0, 1, 3, 0, 1, 6, 0⟩ : State).ore +
          (⟨17, 0, 1, 3, 0, 1, 6, 0⟩ : State).ore_robots * (3 + 1) ∧
      exampleBlueprint.obsidian_robot_cost.clay ≤
        (⟨17, 0, 1, 3, 0, 1, 6, 0⟩ : State).clay +
          (⟨17, 0, 1, 3, 0, 1, 6, 0⟩ : State).clay_robots * (3 + 1) ∧
      exampleBlueprint.obsidian_robot_cost.obsidian ≤
        (⟨17, 0, 1, 3, 0, 1, 6, 0⟩ : State).obsidian +
          (⟨17, 0, 1, 3, 0, 1, 6, 0⟩ : State).obsidian_robots * (3 + 1) :=
  claim_C9_no_underflow ⟨17, 0, 1, 3, 0, 1, 6, 0⟩ exampleBlueprint.obsidian_robot_cost 3
    (by decide)

/-- C10: provided the initial budget is at least 1, every state ever placed
on the search queue has remaining time at least 1 (children are only
inserted with strictly positive remaining time), so the subtraction
`time * (time - 1)` inside `maximum_achievable_open_geodes` never
underflows on any popped state. -/
theorem claim_C10_queue_time_positive (bp : Blueprint) (minutes : Nat)
    (hmin : 1 ≤ minutes) (p : List State × Nat)
    (h : Relation.ReflTransGen (SearchStep bp bp.most_robots_needed)
      ([State.create_initial minutes], 0) p) :
    ∀ s ∈ p.1, 1 ≤ s.time := by
  induction h with
  | refl =>
    intro s hs
    rcases List.mem_cons.mp hs with rfl | hn
    · exact hmin
    · exact absurd hn (List.not_mem_nil s)
  | tail hab hbc ih =>
    cases hbc with
    | prune s rest best hb =>
      intro x hx
      exact ih x (List.mem_cons_of_mem s hx)
    | expand s rest best hb =>
      intro x hx
      rcases List.mem_append.mp hx with hr | hm
      · exact ih x (List.mem_cons_of_mem s hr)
      · exact State.child_time_pos hm

/-- Witness for C10: after one concrete expansion step from a 24-minute
budget, the clay-robot child sitting on the queue has positive remaining
time. -/
theorem claim_C10_queue_time_positive_witness :
    1 ≤ (⟨21, 0, 1, 1, 0, 1, 0, 0⟩ : State).time :=
  claim_C10_queue_time_positive exampleBlueprint 24 (by decide) _
    (Relation.ReflTransGen.single
      (SearchStep.expand (State.create_initial 24) [] 0 (by decide)))
    ⟨21, 0, 1, 1, 0, 1, 0, 0⟩ (by decide)

/-- Rewrites the fused parse-and-compute `filterMap` of `part_one` as a
parse `filterMap` followed by a `map`. -/
theorem part_one_eq (input : List Char) :
    part_one input = some ((((rustLines input).filterMap Blueprint.from_str).map
      (fun bp => bp.number * bp.most_geodes_openable 24)).sum) := by
  unfold part_one
  congr 1
  induction rustLines input with
  | nil => rfl
  | cons x xs ih =>
    cases h : Blueprint.from_str x <;>
      simp [List.filterMap_cons, h, ih]

/-- Rewrites the fused parse-filter-compute `filterMap` of `part_two` as a
parse `filterMap`, a `filter` on the blueprint number, and a `map`. -/
theorem part_two_eq (input : List Char) :
    part_two input = some (((((rustLines input).filterMap Blueprint.from_str).filter
      (fun bp => bp.number ≤ 3)).map (fun bp => bp.most_geodes_openable 32)).prod) := by
  unfold part_two
  congr 1
  induction rustLines input with
  | nil => rfl
  | cons x xs ih =>
    cases h : Blueprint.from_str x with
    | none => simp [List.filterMap_cons, h, ih]
    | some bp =>
      by_cases hp : bp.number ≤ 3 <;>
        simp [List.filterMap_cons, List.filter_cons, h, hp, ih]

/-- C7: `part_one` returns the sum of `blueprint_id * most_geodes_openable 24`
over all parsed blueprints, and `part_two` returns the product of
`most_geodes_openable 32` over the parsed blueprints with identifier at
most 3. -/
theorem claim_C7_aggregation_shape (input : List Char) :
    part_one input = some ((((rustLines input).filterMap Blueprint.from_str).map
        (fun bp => bp.number * bp.most_geodes_openable 24)).sum) ∧
      part_two input = some (((((rustLines input).filterMap Blueprint.from_str).filter
        (fun bp => bp.number ≤ 3)).map (fun bp => bp.most_geodes_openable 32)).prod) :=
  ⟨part_one_eq input, part_two_eq input⟩

/-- Counterexample to C3 as stated: on the input consisting of the single
unparseable line `garbage`, a line fails to parse and yet both `part_one`
and `part_two` still return an answer (`some`), not `none`. -/
theorem claim_C3_counterexample :
    (∃ l ∈ rustLines ("garbage".data), Blueprint.from_str l = none) ∧
      part_one ("garbage".data) ≠ none ∧ part_two ("garbage".data) ≠ none := by
  refine ⟨⟨"garbage".data, ?_, ?_⟩, ?_, ?_⟩ <;> decide

/-- C3 amended: a line that fails to parse is silently skipped by the
`filter_map`; even when some line is malformed, `part_one` and `part_two`
return `some` of the aggregate computed from the lines that do parse (a
partial answer), never `none`. -/
theorem claim_C3_amended_bad_lines_skipped (input : List Char)
    (h : ∃ l ∈ rustLines input, Blueprint.from_str l = none) :
    part_one input = some ((((rustLines input).filterMap Blueprint.from_str).map
        (fun bp => bp.number * bp.most_geodes_openable 24)).sum) ∧
      part_two input = some (((((rustLines input).filterMap Blueprint.from_str).filter
        (fun bp => bp.number ≤ 3)).map (fun bp => bp.most_geodes_openable 32)).prod) :=
  ⟨part_one_eq input, part_two_eq input⟩

/-- Witness for the amended C3 at a mixed input (one malformed line, one
well-formed blueprint line). -/
theorem claim_C3_amended_bad_lines_skipped_witness :
    part_one mixedInput = some ((((rustLines mixedInput).filterMap Blueprint.from_str).map
        (fun bp => bp.number * bp.most_geodes_openable 24)).sum) ∧
      part_two mixedInput = some (((((rustLines mixedInput).filterMap Blueprint.from_str).filter
        (fun bp => bp.number ≤ 3)).map (fun bp => bp.most_geodes_openable 32)).prod) :=
  claim_C3_amended_bad_lines_skipped mixedInput
    ⟨"garbage".data, by decide, by decide⟩
